import Mathlib

/-!
# Xposed bootstrap (`xposed.cpp`): a shallow embedding and its properties

The definitions below follow `src/xposed.cpp` function by function.  C strings
are lists of characters without the terminating NUL; `strcmp(a, b) == 0` is
equality of such lists.
-/

namespace xposed

/-- A C string: the characters before the terminating NUL. -/
abbrev CStr := List Char

/-! ## libc string helpers -/

/-- The function `strrchr(s, c)`: the suffix of `s` that starts at the last
occurrence of `c`, or `none` (NULL) when `c` does not occur. -/
def strrchr : CStr → Char → Option CStr
  | [], _ => none
  | x :: xs, c =>
    match strrchr xs c with
    | some r => some r
    | none => if x = c then some (x :: xs) else none

/-! ## `shouldIgnoreCommand` -/

/-- The test on `lastComponent` at lines 220-222. -/
def isSuperuserComponent (lastComponent : CStr) : Bool :=
  lastComponent == ".RequestActivity".toList
    || lastComponent == ".NotifyActivity".toList
    || lastComponent == ".SuReceiver".toList

/-- The body of the `for` loop of `shouldIgnoreCommand` (lines 208-224), run
over the arguments `argv[i], argv[i+1], ...` that are still to be visited, with
the current value of `mightBeSuperuser`. -/
def ignoreLoop : Bool → List CStr → Bool
  | _, [] => false
  | mightBeSuperuser, arg :: rest =>
    if arg == "com.noshufou.android.su.RESULT".toList
        || arg == "eu.chainfire.supersu.NativeAccess".toList then true
    else if mightBeSuperuser && arg == "--user".toList then true
    else
      match strrchr arg '.' with
      | none => ignoreLoop mightBeSuperuser rest
      | some lastComponent =>
        if isSuperuserComponent lastComponent then ignoreLoop true rest
        else ignoreLoop mightBeSuperuser rest

/-- The function `shouldIgnoreCommand(argc, argv)`, with `argc = argv.length`
and `startClassName` the value of `xposed->startClassName`. -/
def shouldIgnoreCommand (startClassName : CStr) (argv : List CStr) : Bool :=
  if argv.length < 4 || startClassName != "com.android.commands.am.Am".toList then false
  else
    match argv[2]? with
    | none => false
    | some a2 =>
      if a2 != "broadcast".toList && a2 != "start".toList then false
      else ignoreLoop false (argv.drop 3)

/-! ## Build-time strings -/

/-- The string macros that `xposed.cpp` takes from `xposed.h`.  The header is
not among the sources, so their values are parameters of the embedding. -/
structure Defines where
  XPOSED_JAR : CStr
  XPOSED_LIB_DALVIK : CStr
  XPOSED_LIB_ART : CStr
  XPOSED_LOAD_BLOCKER : CStr
  XPOSED_SAFEMODE_DISABLE : CStr
  XPOSED_SAFEMODE_NODELAY : CStr

/-! ## `determineRuntime` -/

/-- The NUL byte. -/
def NUL : Char := Char.ofNat 0

/-- The C string held in a buffer: the bytes before the first NUL. -/
def cstrOf (buf : List Char) : CStr := buf.takeWhile (fun c => c != NUL)

/-- The read of `fgets`: at most `n` bytes are taken from the stream, and the
read stops after a newline.  The result is the bytes read and the rest of the
stream. -/
def readLine : Nat → List Char → List Char × List Char
  | 0, s => ([], s)
  | _ + 1, [] => ([], [])
  | n + 1, c :: s =>
    if c = '\n' then ([c], s)
    else (c :: (readLine n s).1, (readLine n s).2)

/-- The call `fgets(line, size, fp)` on the unread part of the file: `none`
(NULL) at end of file, else the C string now in `line` and the part of the file
still unread. -/
def fgets (size : Nat) (stream : List Char) : Option (CStr × List Char) :=
  match stream with
  | [] => none
  | _ :: _ => some (cstrOf (readLine (size - 1) stream).1, (readLine (size - 1) stream).2)

/-- The `while` loop of `determineRuntime` (lines 276-294) on the unread part of
`/proc/self/maps`.  The result is `success` and the value of `*xposedLibPath`;
`none` means the fuel ran out before the loop ended. -/
def determineRuntimeLoop (d : Defines) :
    Nat → List Char → Option CStr → Option (Bool × Option CStr)
  | 0, _, _ => none
  | fuel + 1, stream, xposedLibPath =>
    match fgets 256 stream with
    | none => some (false, xposedLibPath)
    | some (line, rest) =>
      match strrchr line '/' with
      | none => determineRuntimeLoop d fuel rest xposedLibPath
      | some libname =>
        if "libdvm.so\n".toList == libname.drop 1 then some (true, some d.XPOSED_LIB_DALVIK)
        else if "libart.so\n".toList == libname.drop 1 then some (true, some d.XPOSED_LIB_ART)
        else determineRuntimeLoop d fuel rest xposedLibPath

/-- The function `determineRuntime(&xposedLibPath)`.  The argument `maps` is the
content of `/proc/self/maps`, or `none` when `fopen` fails; `xposedLibPath` is
the value the output variable holds before the call.  Every iteration of the
loop reads at least one byte, so `length + 1` iterations are enough. -/
def determineRuntime (d : Defines) (maps : Option (List Char)) (xposedLibPath : Option CStr) :
    Option (Bool × Option CStr) :=
  match maps with
  | none => some (false, xposedLibPath)
  | some content => determineRuntimeLoop d (content.length + 1) content xposedLibPath

/-! ## The file system and the environment -/

/-- A file: its content and whether the process may read it. -/
structure File where
  content : List Char
  readable : Bool
  deriving DecidableEq

/-- The part of the process state that `initialize` reads and writes: the files
by path and the environment variables by name.  Log output is not modelled. -/
structure World where
  files : CStr → Option File
  env : CStr → Option CStr

/-- The mode argument of `access`. -/
inductive AccessMode where
  | F_OK
  | R_OK

/-- The libc call `access(path, mode)`: 0 when the file exists (and, for
`R_OK`, is readable), else -1. -/
def access (w : World) (path : CStr) (mode : AccessMode) : Int :=
  match w.files path, mode with
  | none, _ => -1
  | some _, .F_OK => 0
  | some f, .R_OK => if f.readable then 0 else -1

/-- The libc call `getenv(name)`. -/
def getenv (w : World) (name : CStr) : Option CStr := w.env name

/-- The libc call `setenv(name, value, 1)`. -/
def setenv (w : World) (name value : CStr) : World :=
  { w with env := fun n => if n = name then some value else w.env n }

/-- The libc call `snprintf(buf, size, "%s:%s", a, b)`: the buffer receives the
first `size - 1` bytes of the formatted text, and the result is the length of
the whole text, or -1 when that length does not fit an `int`. -/
def snprintfColon (size : Nat) (a b : CStr) : CStr × Int :=
  ((a ++ ':' :: b).take (size - 1),
    if (a ++ ':' :: b).length < 2 ^ 31 then ((a ++ ':' :: b).length : Int) else -1)

/-! ## `addJarToClasspath` -/

/-- The function `addJarToClasspath()`: the result and the state it leaves. -/
def addJarToClasspath (d : Defines) (w : World) : Bool × World :=
  if access w d.XPOSED_JAR .R_OK = 0 then
    match getenv w "CLASSPATH".toList with
    | none => (true, setenv w "CLASSPATH".toList d.XPOSED_JAR)
    | some oldClassPath =>
      let classPath := (snprintfColon 4096 d.XPOSED_JAR oldClassPath).1
      let neededLength := (snprintfColon 4096 d.XPOSED_JAR oldClassPath).2
      if neededLength ≥ 4096 then (false, w)
      else (true, setenv w "CLASSPATH".toList classPath)
  else (false, w)

/-! ## The shared context and the build configuration -/

/-- The value of a function-pointer slot of `XposedShared`. -/
inductive FnPtr where
  | null
  | membased_accessFile
  | membased_statFile
  | membased_readFile
  | other (addr : Nat)
  deriving DecidableEq

/-- The fields of `struct XposedShared` that `xposed.cpp` reads or writes.  The
struct is declared in `xposed.h`, which is not among the sources. -/
structure XposedShared where
  zygote : Bool
  startSystemServer : Bool
  startClassName : CStr
  isSELinuxEnabled : Bool
  isSELinuxEnforcing : Bool
  zygoteservice_accessFile : FnPtr
  zygoteservice_statFile : FnPtr
  zygoteservice_readFile : FnPtr
  deriving DecidableEq

/-- The two preprocessor switches of `xposed.cpp`. -/
structure BuildConfig where
  XPOSED_ENABLE_FOR_TOOLS : Bool
  XPOSED_WITH_SELINUX : Bool

/-- What the collaborators outside `xposed.cpp` answer during one run of
`initialize`: the SELinux library, the service starters, the safemode trigger
check (a function of its skip-delay argument), and whether `open` on the load
blocker succeeds. -/
structure Platform where
  is_selinux_enabled : Int
  security_getenforce : Int
  startAll : Bool
  startMembased : Bool
  detectSafemodeTrigger : Bool → Bool
  openSucceeds : Bool

/-- The calls into collaborators, in the order `initialize` makes them. -/
inductive Event where
  | logcatStart
  | sleep (seconds : Nat)
  | printRomInfo
  | startAll
  | startMembased
  | detectSafemodeTrigger (skipDelay : Bool)
  | disableXposed
  deriving DecidableEq

/-! ## Flag files -/

/-- Modelled from the spec: `zygote_access` is declared in `xposed_service.h`,
which is not among the sources.  Flag files have presence-only semantics, so
the call answers as `access` does. -/
def zygote_access (w : World) (path : CStr) (mode : AccessMode) : Int :=
  access w path mode

/-- The function `isDisabled()`. -/
def isDisabled (d : Defines) (w : World) : Bool :=
  if zygote_access w d.XPOSED_LOAD_BLOCKER .F_OK = 0 then true else false

/-- The libc call `open(path, O_WRONLY | O_CREAT, S_IRUSR | S_IWUSR)`: the file
descriptor (negative on failure) and the state afterwards.  An existing file is
left as it is (there is no `O_TRUNC`); a missing file is created empty. -/
def openCreate (succeeds : Bool) (w : World) (path : CStr) : Int × World :=
  if succeeds then
    match w.files path with
    | some _ => (3, w)
    | none =>
      (3, { w with files := fun q => if q = path then some ⟨[], true⟩ else w.files q })
  else (-1, w)

/-- The function `disableXposed()`; `close` leaves the files as they are. -/
def disableXposed (pf : Platform) (d : Defines) (w : World) : World :=
  (openCreate pf.openSucceeds w d.XPOSED_LOAD_BLOCKER).2

/-- The function `isSafemodeDisabled()`. -/
def isSafemodeDisabled (d : Defines) (w : World) : Bool :=
  if zygote_access w d.XPOSED_SAFEMODE_DISABLE .F_OK = 0 then true else false

/-- The function `shouldSkipSafemodeDelay()`. -/
def shouldSkipSafemodeDelay (d : Defines) (w : World) : Bool :=
  if zygote_access w d.XPOSED_SAFEMODE_NODELAY .F_OK = 0 then true else false

/-! ## `initialize` -/

/-- The outcome of `initialize`: its result, the shared context, the files and
environment, and the calls made to collaborators. -/
structure InitResult where
  result : Bool
  shared : XposedShared
  world : World
  events : List Event

/-- Lines 76-86: the assignments to the shared context. -/
def initShared (cfg : BuildConfig) (pf : Platform) (zygote startSystemServer : Bool)
    (className : CStr) (x : XposedShared) : XposedShared :=
  let isSELinuxEnabled :=
    if cfg.XPOSED_WITH_SELINUX then decide (pf.is_selinux_enabled = 1) else false
  let isSELinuxEnforcing :=
    if cfg.XPOSED_WITH_SELINUX then isSELinuxEnabled && decide (pf.security_getenforce = 1)
    else false
  { x with
    zygote := zygote
    startSystemServer := startSystemServer
    startClassName := className
    isSELinuxEnabled := isSELinuxEnabled
    isSELinuxEnforcing := isSELinuxEnforcing }

/-- Lines 88-97: the log service or the delay, then `printRomInfo`. -/
def initPreamble (zygote startSystemServer : Bool) : List Event :=
  (if startSystemServer then [Event.logcatStart]
    else if zygote then [Event.sleep 10] else []) ++ [Event.printRomInfo]

/-- Lines 99-107: the start of the services.  The result is false when the
function returns false here. -/
def initServices (cfg : BuildConfig) (pf : Platform) (startSystemServer : Bool)
    (x : XposedShared) : Bool × List Event :=
  if startSystemServer then (pf.startAll, [Event.startAll])
  else if cfg.XPOSED_WITH_SELINUX && x.isSELinuxEnabled then
    (pf.startMembased, [Event.startMembased])
  else (true, [])

/-- Lines 109-111: the safemode step. -/
def initSafemode (pf : Platform) (d : Defines) (zygote : Bool) (w : World) :
    World × List Event :=
  if zygote && !isSafemodeDisabled d w then
    if pf.detectSafemodeTrigger (shouldSkipSafemodeDelay d w) then
      (disableXposed pf d w,
        [Event.detectSafemodeTrigger (shouldSkipSafemodeDelay d w), Event.disableXposed])
    else (w, [Event.detectSafemodeTrigger (shouldSkipSafemodeDelay d w)])
  else (w, [])

/-- Lines 113-116: the final decision. -/
def initDecision (d : Defines) (zygote : Bool) (x : XposedShared) (argv : List CStr)
    (w : World) : Bool × World :=
  if isDisabled d w || (!zygote && shouldIgnoreCommand x.startClassName argv) then (false, w)
  else addJarToClasspath d w

/-- The function `initialize(zygote, startSystemServer, className, argc, argv)`
run on the shared context `x` and the state `w`. -/
def initializeXposed (cfg : BuildConfig) (d : Defines) (pf : Platform)
    (zygote startSystemServer : Bool) (className : CStr) (argv : List CStr)
    (x : XposedShared) (w : World) : InitResult :=
  if !cfg.XPOSED_ENABLE_FOR_TOOLS && !zygote then ⟨false, x, w, []⟩
  else
    let x1 := initShared cfg pf zygote startSystemServer className x
    let ev1 := initPreamble zygote startSystemServer
    let sv := initServices cfg pf startSystemServer x1
    if !sv.1 then ⟨false, x1, w, ev1 ++ sv.2⟩
    else
      let sm := initSafemode pf d zygote w
      let dec := initDecision d zygote x1 argv sm.1
      ⟨dec.1, x1, dec.2, ev1 ++ sv.2 ++ sm.2⟩

/-! ## `onVmCreated` -/

/-- What the dynamic loader and the loaded module answer: `dlopen` on the
library path, `dlsym` of `xposedInitLib` on the handle, and the entry point
itself, which receives the shared context and may change it. -/
structure Loader where
  dlopen : Option CStr → Option Nat
  dlsym : Nat → CStr → Bool
  xposedInitLib : XposedShared → Bool × XposedShared

/-- The outcome of `onVmCreated`: the shared context at the end, the context as
it was handed to `xposedInitLib` (if the entry point was reached), and whether
`xposed->onVmCreated(env)` was called. -/
structure VmCreated where
  shared : XposedShared
  handedToInitLib : Option XposedShared
  onVmCreatedCalled : Bool
  deriving DecidableEq

/-- Lines 328-332: the assignments to the three callback slots. -/
def populateSlots (cfg : BuildConfig) (x : XposedShared) : XposedShared :=
  if cfg.XPOSED_WITH_SELINUX then
    { x with
      zygoteservice_accessFile := FnPtr.membased_accessFile
      zygoteservice_statFile := FnPtr.membased_statFile
      zygoteservice_readFile := FnPtr.membased_readFile }
  else x

/-- The function `onVmCreated(env)` on the shared context `x`; `none` only if
`determineRuntime` ran out of fuel. -/
def onVmCreated (cfg : BuildConfig) (d : Defines) (maps : Option (List Char)) (ld : Loader)
    (x : XposedShared) : Option VmCreated :=
  match determineRuntime d maps none with
  | none => none
  | some (false, _) => some ⟨x, none, false⟩
  | some (true, xposedLibPath) =>
    match ld.dlopen xposedLibPath with
    | none => some ⟨x, none, false⟩
    | some xposedLibHandle =>
      if ld.dlsym xposedLibHandle "xposedInitLib".toList then
        some ⟨(ld.xposedInitLib (populateSlots cfg x)).2, some (populateSlots cfg x),
          (ld.xposedInitLib (populateSlots cfg x)).1⟩
      else some ⟨x, none, false⟩

/-! ## `setProcessName` -/

/-- The process memory: the byte at every address. -/
abbrev Memory := Nat → Char

/-- One byte store. -/
def store (mem : Memory) (addr : Nat) (b : Char) : Memory :=
  fun a => if a = addr then b else mem a

/-- The libc call `memset(dst, c, n)`. -/
def memset : Memory → Nat → Char → Nat → Memory
  | mem, _, _, 0 => mem
  | mem, dst, c, n + 1 => memset (store mem dst c) (dst + 1) c n

/-- The libc call `strlcpy(dst, src, size)`: copies bytes of `src` while more
than one byte of room is left, then stores the terminator; nothing is written
when `size` is 0. -/
def strlcpy : Memory → Nat → CStr → Nat → Memory
  | mem, _, _, 0 => mem
  | mem, dst, [], _ + 1 => store mem dst NUL
  | mem, dst, _ :: _, 1 => store mem dst NUL
  | mem, dst, c :: s, n + 2 => strlcpy (store mem dst c) (dst + 1) s (n + 1)

/-- The memory, the span `handleOptions` captured in `argBlockStart` and
`argBlockLength`, and the name last given to `set_process_name`. -/
structure ProcessState where
  memory : Memory
  argBlockStart : Nat
  argBlockLength : Nat
  processName : Option CStr

/-- The function `setProcessName(name)`; `name` lies outside the span. -/
def setProcessName (st : ProcessState) (name : CStr) : ProcessState :=
  { st with
    memory :=
      strlcpy (memset st.memory st.argBlockStart NUL st.argBlockLength)
        st.argBlockStart name st.argBlockLength
    processName := some name }

/-! ## `dropCapabilities` -/

/-- The three `__u32` sets of `struct __user_cap_data_struct`. -/
structure CapData where
  effective : Nat
  permitted : Nat
  inheritable : Nat
  deriving DecidableEq

/-- The type `struct __user_cap_header_struct`. -/
structure CapHeader where
  version : Nat
  pid : Int
  deriving DecidableEq

/-- The constant `_LINUX_CAPABILITY_VERSION_3` of `linux/capability.h`. -/
def LINUX_CAPABILITY_VERSION_3 : Nat := 0x20080522

/-- The macro `CAP_TO_INDEX(x)`, `((x) >> 5)`. -/
def CAP_TO_INDEX (x : Nat) : Nat := x >>> 5

/-- The macro `CAP_TO_MASK(x)`, `(1 << ((x) & 31))`, as the `__u32` it is
stored into. -/
def CAP_TO_MASK (x : Nat) : Nat := (1 <<< (x &&& 31)) % 2 ^ 32

/-- The `for` loop of `dropCapabilities` (lines 357-359) over the entries of
`keep` still to be read.  The result is `none` when the loop reads past the end
of the array or stores outside `cap[2]`. -/
def dropLoop : List Int → CapData → CapData → Option (CapData × CapData)
  | [], _, _ => none
  | k :: rest, cap0, cap1 =>
    if k ≥ 0 then
      if CAP_TO_INDEX k.toNat = 0 then
        dropLoop rest { cap0 with permitted := cap0.permitted ||| CAP_TO_MASK k.toNat } cap1
      else if CAP_TO_INDEX k.toNat = 1 then
        dropLoop rest cap0 { cap1 with permitted := cap1.permitted ||| CAP_TO_MASK k.toNat }
      else none
    else some (cap0, cap1)

/-- The function `dropCapabilities(keep)`: the header and the two capability
words passed to `capset`; `keep = none` is the NULL pointer. -/
def dropCapabilities (keep : Option (List Int)) : Option (CapHeader × CapData × CapData) :=
  match keep with
  | none => some (⟨LINUX_CAPABILITY_VERSION_3, 0⟩, ⟨0, 0, 0⟩, ⟨0, 0, 0⟩)
  | some ks =>
    match dropLoop ks ⟨0, 0, 0⟩ ⟨0, 0, 0⟩ with
    | none => none
    | some (cap0, cap1) =>
      some (⟨LINUX_CAPABILITY_VERSION_3, 0⟩,
        { cap0 with effective := cap0.permitted, inheritable := cap0.permitted },
        { cap1 with effective := cap1.permitted, inheritable := cap1.permitted })

/-! ## Specification-side vocabulary for the activation gate -/

/-- The security posture of the data model. -/
inductive SecurityPostureState where
  | Disabled
  | Permissive
  | Enforcing
  deriving DecidableEq

/-- The posture a shared context stands for. -/
def securityPosture (x : XposedShared) : SecurityPostureState :=
  if x.isSELinuxEnabled then
    if x.isSELinuxEnforcing then .Enforcing else .Permissive
  else .Disabled

/-- The run gets past the restricted-mode gate and the start of the services. -/
def PastServiceStartup (cfg : BuildConfig) (pf : Platform) (zygote startSystemServer : Bool)
    (className : CStr) (x : XposedShared) : Prop :=
  (cfg.XPOSED_ENABLE_FOR_TOOLS = true ∨ zygote = true) ∧
    (initServices cfg pf startSystemServer
      (initShared cfg pf zygote startSystemServer className x)).1 = true

/-! ## Specification-side vocabulary for runtime identification -/

/-- The file content of a listing: every line followed by a newline. -/
def listingContent : List CStr → List Char
  | [] => []
  | l :: ls => l ++ '\n' :: listingContent ls

/-- The line names a mapped file whose base name (the text after the last `/`)
is `name`; `name` itself has no `/`. -/
def hasBaseName (line name : CStr) : Bool := ('/' :: name).isSuffixOf line

/-- The module path a single line stands for, if its base name is one of the
two runtime libraries. -/
def runtimeOfLine (d : Defines) (line : CStr) : Option CStr :=
  if hasBaseName line "libdvm.so".toList then some d.XPOSED_LIB_DALVIK
  else if hasBaseName line "libart.so".toList then some d.XPOSED_LIB_ART
  else none

/-- Runtime identification as the specification words it: the module path of
the first line, in listing order, whose base name is a runtime library. -/
def identifyRuntimeSpec (d : Defines) (lines : List CStr) : Option CStr :=
  lines.findSome? (runtimeOfLine d)

/-- A line of a text listing: no newline and no NUL inside it. -/
def IsTextLine (l : CStr) : Prop := '\n' ∉ l ∧ NUL ∉ l

/-- A line that `fgets` reads in one piece into the 256-byte buffer: at most
254 bytes before its newline, none of them a newline or NUL. -/
def FitsLineBuffer (l : CStr) : Prop :=
  l.length ≤ 254 ∧ '\n' ∉ l ∧ NUL ∉ l

/-- The loop of `determineRuntime` on the unread bytes `stream` ends with the
result `r`. -/
def LoopEndsWith (d : Defines) (stream : List Char) (p : Option CStr)
    (r : Bool × Option CStr) : Prop :=
  ∃ fuel, determineRuntimeLoop d fuel stream p = some r

/-! ## Sample inputs -/

/-- Sample values of the macros, as in the Xposed sources. -/
def sampleDefines : Defines where
  XPOSED_JAR := "/system/framework/XposedBridge.jar".toList
  XPOSED_LIB_DALVIK := "/system/lib/libxposed_dalvik.so".toList
  XPOSED_LIB_ART := "/system/lib/libxposed_art.so".toList
  XPOSED_LOAD_BLOCKER := "/data/data/de.robv.android.xposed.installer/conf/disabled".toList
  XPOSED_SAFEMODE_DISABLE :=
    "/data/data/de.robv.android.xposed.installer/conf/safemode_disabled".toList
  XPOSED_SAFEMODE_NODELAY :=
    "/data/data/de.robv.android.xposed.installer/conf/safemode_nodelay".toList

/-! ## Specification-side vocabulary for the command heuristic -/

/-- The text `t` is the part of `a` from its last `.` onward. -/
def LastDotText (a t : CStr) : Prop :=
  ∃ pre suf, a = pre ++ '.' :: suf ∧ '.' ∉ suf ∧ t = '.' :: suf

/-- The three marker names of the heuristic. -/
def IsMarkerName (t : CStr) : Prop :=
  t = ".RequestActivity".toList ∨ t = ".NotifyActivity".toList ∨ t = ".SuReceiver".toList

/-- The argument `a` has a marker name as its last dot-component. -/
def HasMarkerComponent (a : CStr) : Prop :=
  ∃ t, LastDotText a t ∧ IsMarkerName t

/-- The argument is one of the two fully-qualified component names. -/
def IsSuperuserAction (a : CStr) : Prop :=
  a = "com.noshufou.android.su.RESULT".toList ∨ a = "eu.chainfire.supersu.NativeAccess".toList

/-- The pattern the scan looks for in `argv[3..]`: an index `i ≥ 3` holding a
superuser action, or holding `--user` with a marker component at some
`3 ≤ j < i`. -/
def SuppressionPattern (argv : List CStr) : Prop :=
  ∃ i a, 3 ≤ i ∧ i < argv.length ∧ argv[i]? = some a ∧
    (IsSuperuserAction a ∨
      (a = "--user".toList ∧
        ∃ j b, 3 ≤ j ∧ j < i ∧ argv[j]? = some b ∧ HasMarkerComponent b))

/-- A shared context before `initialize`: nothing set. -/
def sampleShared : XposedShared where
  zygote := false
  startSystemServer := false
  startClassName := []
  isSELinuxEnabled := false
  isSELinuxEnforcing := false
  zygoteservice_accessFile := FnPtr.null
  zygoteservice_statFile := FnPtr.null
  zygoteservice_readFile := FnPtr.null

/-- A state in which the framework jar is readable, no flag file exists and
`CLASSPATH` holds one entry. -/
def sampleWorld : World where
  files := fun q => if q = sampleDefines.XPOSED_JAR then some ⟨[], true⟩ else none
  env := fun n => if n = "CLASSPATH".toList then some "/system/framework/core.jar".toList else none

/-- The state `sampleWorld` without any environment variable. -/
def sampleWorldNoEnv : World where
  files := sampleWorld.files
  env := fun _ => none

/-- The state `sampleWorld` with a `CLASSPATH` of 4096 bytes. -/
def sampleWorldLongEnv : World where
  files := sampleWorld.files
  env := fun n => if n = "CLASSPATH".toList then some (List.replicate 4096 'a') else none

/-- A state without any file. -/
def sampleWorldNoJar : World where
  files := fun _ => none
  env := sampleWorld.env

/-- A build with both switches on. -/
def sampleConfig : BuildConfig where
  XPOSED_ENABLE_FOR_TOOLS := true
  XPOSED_WITH_SELINUX := true

/-- A platform with SELinux enabled and not enforcing, on which the membased
service does not start. -/
def samplePermissive : Platform where
  is_selinux_enabled := 1
  security_getenforce := 0
  startAll := true
  startMembased := false
  detectSafemodeTrigger := fun _ => false
  openSucceeds := true

/-- A platform with SELinux enforcing, all services starting, and the safemode
trigger set. -/
def sampleEnforcing : Platform where
  is_selinux_enabled := 1
  security_getenforce := 1
  startAll := true
  startMembased := true
  detectSafemodeTrigger := fun _ => true
  openSucceeds := true

/-- A platform without SELinux. -/
def sampleNoSelinux : Platform where
  is_selinux_enabled := 0
  security_getenforce := 0
  startAll := true
  startMembased := true
  detectSafemodeTrigger := fun _ => false
  openSucceeds := true

/-- A loader on which every step succeeds and the module leaves the context
as it is. -/
def sampleLoader : Loader where
  dlopen := fun _ => some 1
  dlsym := fun _ _ => true
  xposedInitLib := fun x => (true, x)

/-- A process whose captured span is the 8 bytes from address 100. -/
def sampleProcess : ProcessState where
  memory := fun _ => 'x'
  argBlockStart := 100
  argBlockLength := 8
  processName := none

/-! # Properties -/

/-! ## Lemmas on `strrchr` -/

theorem strrchr_eq_none_iff (s : CStr) (c : Char) : strrchr s c = none ↔ c ∉ s := by
  induction s with
  | nil => simp [strrchr]
  | cons x xs ih =>
    simp only [strrchr, List.mem_cons, not_or]
    cases h : strrchr xs c with
    | some r =>
      have : ¬ c ∉ xs := fun hn => by rw [ih.mpr hn] at h; cases h
      simp [this]
    | none =>
      have hc : c ∉ xs := ih.mp h
      by_cases hx : x = c
      · simp [hx]
      · simp [hx, hc, Ne.symm hx]

theorem strrchr_eq_some_iff (s : CStr) (c : Char) (r : CStr) :
    strrchr s c = some r ↔ ∃ pre suf, s = pre ++ c :: suf ∧ c ∉ suf ∧ r = c :: suf := by
  induction s generalizing r with
  | nil => simp [strrchr]
  | cons x xs ih =>
    simp only [strrchr]
    cases h : strrchr xs c with
    | some r0 =>
      obtain ⟨pre, suf, hs, hsuf, hr⟩ := (ih r0).mp h
      constructor
      · intro e
        cases e
        exact ⟨x :: pre, suf, by simp [hs], hsuf, hr⟩
      · rintro ⟨pre2, suf2, hs2, hsuf2, hr2⟩
        cases pre2 with
        | nil =>
          simp only [List.nil_append, List.cons.injEq] at hs2
          exfalso
          apply hsuf2
          rw [← hs2.2, hs]
          simp
        | cons p ps =>
          simp only [List.cons_append, List.cons.injEq] at hs2
          have : strrchr xs c = some r := (ih r).mpr ⟨ps, suf2, hs2.2, hsuf2, hr2⟩
          rw [h] at this
          exact this
    | none =>
      have hc : c ∉ xs := (strrchr_eq_none_iff xs c).mp h
      constructor
      · intro e
        by_cases hx : x = c
        · simp only [hx, if_true, Option.some.injEq] at e
          exact ⟨[], xs, by simp [hx], hc, e.symm⟩
        · simp [hx] at e
      · rintro ⟨pre2, suf2, hs2, hsuf2, hr2⟩
        cases pre2 with
        | nil =>
          simp only [List.nil_append, List.cons.injEq] at hs2
          simp [hs2.1, hr2, hs2.2]
        | cons p ps =>
          simp only [List.cons_append, List.cons.injEq] at hs2
          exfalso
          apply hc
          rw [hs2.2]
          simp

/-! ## Lemmas on the scan of `shouldIgnoreCommand` -/

/-- The argument sets `mightBeSuperuser` (lines 216-223). -/
theorem marker_iff (a : CStr) :
    (∃ lc, strrchr a '.' = some lc ∧ isSuperuserComponent lc = true) ↔ HasMarkerComponent a := by
  unfold HasMarkerComponent LastDotText IsMarkerName
  constructor
  · rintro ⟨lc, h, hm⟩
    refine ⟨lc, (strrchr_eq_some_iff a '.' lc).mp h, ?_⟩
    simpa [isSuperuserComponent, or_assoc] using hm
  · rintro ⟨t, h, hm⟩
    refine ⟨t, (strrchr_eq_some_iff a '.' t).mpr h, ?_⟩
    simpa [isSuperuserComponent, or_assoc] using hm

theorem ignoreLoop_cons_of_action (m : Bool) (a : CStr) (rest : List CStr)
    (h : IsSuperuserAction a) : ignoreLoop m (a :: rest) = true := by
  unfold IsSuperuserAction at h
  rcases h with h | h <;> simp [ignoreLoop, h]

theorem ignoreLoop_cons_of_user (a : CStr) (rest : List CStr)
    (h : a = "--user".toList) : ignoreLoop true (a :: rest) = true := by
  simp [ignoreLoop, h]

/-- One iteration that does not return: the loop continues with the flag
raised exactly when it was raised or the argument has a marker component. -/
theorem ignoreLoop_cons_step (m : Bool) (a : CStr) (rest : List CStr)
    (h1 : ¬ IsSuperuserAction a) (h2 : ¬ (m = true ∧ a = "--user".toList)) :
    ∃ m2, ignoreLoop m (a :: rest) = ignoreLoop m2 rest ∧
      (m2 = true ↔ m = true ∨ HasMarkerComponent a) := by
  rw [← marker_iff]
  unfold IsSuperuserAction at h1
  simp only [ignoreLoop]
  generalize "com.noshufou.android.su.RESULT".toList = r at h1 ⊢
  generalize "eu.chainfire.supersu.NativeAccess".toList = n at h1 ⊢
  generalize "--user".toList = u at h2 ⊢
  have h1a : (a == r || a == n) = false := by simpa [not_or] using h1
  have h2a : (m && a == u) = false := by
    cases m <;> simp_all
  simp only [h1a, h2a, Bool.false_eq_true, if_false]
  cases h : strrchr a '.' with
  | none => exact ⟨m, rfl, by simp⟩
  | some lc =>
    cases hb : isSuperuserComponent lc with
    | false => exact ⟨m, by simp [hb], by simp [hb]⟩
    | true => exact ⟨true, by simp [hb], by simp [hb]⟩

/-- What `ignoreLoop` computes: the scan returns true exactly when some
argument is a superuser action, or is `--user` with the flag already set or a
marker component strictly before it. -/
theorem ignoreLoop_iff (m : Bool) (args : List CStr) :
    ignoreLoop m args = true ↔
      ∃ (i : Nat) (a : CStr), args[i]? = some a ∧
        (IsSuperuserAction a ∨
          (a = "--user".toList ∧
            (m = true ∨ ∃ (j : Nat) (b : CStr),
              j < i ∧ args[j]? = some b ∧ HasMarkerComponent b))) := by
  induction args generalizing m with
  | nil => simp [ignoreLoop]
  | cons x rest ih =>
    by_cases h1 : IsSuperuserAction x
    · rw [ignoreLoop_cons_of_action m x rest h1]
      exact ⟨fun _ => ⟨0, x, by simp, Or.inl h1⟩, fun _ => rfl⟩
    by_cases h2 : m = true ∧ x = "--user".toList
    · rw [h2.1, ignoreLoop_cons_of_user x rest h2.2]
      exact ⟨fun _ => ⟨0, x, by simp, Or.inr ⟨h2.2, Or.inl rfl⟩⟩, fun _ => rfl⟩
    obtain ⟨m2, key, hm2⟩ := ignoreLoop_cons_step m x rest h1 h2
    rw [key, ih]
    constructor
    · rintro ⟨i, a, hi, h⟩
      refine ⟨i + 1, a, by simpa using hi, ?_⟩
      rcases h with h | ⟨hu, h⟩
      · exact Or.inl h
      · refine Or.inr ⟨hu, ?_⟩
        rcases h with h | ⟨j, b, hj, hb, hm⟩
        · rcases hm2.mp h with h | h
          · exact Or.inl h
          · exact Or.inr ⟨0, x, by omega, by simp, h⟩
        · exact Or.inr ⟨j + 1, b, by omega, by simpa using hb, hm⟩
    · rintro ⟨i, a, hi, h⟩
      cases i with
      | zero =>
        simp only [List.getElem?_cons_zero, Option.some.injEq] at hi
        subst hi
        rcases h with h | ⟨hu, h⟩
        · exact absurd h h1
        · rcases h with h | ⟨j, b, hj, _, _⟩
          · exact absurd ⟨h, hu⟩ h2
          · omega
      | succ i =>
        simp only [List.getElem?_cons_succ] at hi
        refine ⟨i, a, hi, ?_⟩
        rcases h with h | ⟨hu, h⟩
        · exact Or.inl h
        · refine Or.inr ⟨hu, ?_⟩
          rcases h with h | ⟨j, b, hj, hb, hm⟩
          · exact Or.inl (hm2.mpr (Or.inl h))
          · cases j with
            | zero =>
              simp only [List.getElem?_cons_zero, Option.some.injEq] at hb
              subst hb
              exact Or.inl (hm2.mpr (Or.inr hm))
            | succ j =>
              simp only [List.getElem?_cons_succ] at hb
              exact Or.inr ⟨j, b, by omega, hb, hm⟩

/-- The suppression pattern of `argv` is the scan pattern of `argv.drop 3`. -/
theorem ignoreLoop_drop_iff (argv : List CStr) :
    ignoreLoop false (argv.drop 3) = true ↔ SuppressionPattern argv := by
  rw [ignoreLoop_iff]
  unfold SuppressionPattern
  constructor
  · rintro ⟨i, a, hi, h⟩
    have hi2 : argv[3 + i]? = some a := by simpa [List.getElem?_drop] using hi
    have hlt : 3 + i < argv.length := by
      by_contra hc
      rw [List.getElem?_eq_none (by omega)] at hi2
      cases hi2
    refine ⟨3 + i, a, by omega, hlt, hi2, ?_⟩
    rcases h with h | ⟨hu, h⟩
    · exact Or.inl h
    · refine Or.inr ⟨hu, ?_⟩
      rcases h with h | ⟨j, b, hj, hb, hm⟩
      · cases h
      · exact ⟨3 + j, b, by omega, by omega, by simpa [List.getElem?_drop] using hb, hm⟩
  · rintro ⟨i, a, h3, _, hi, h⟩
    obtain ⟨k, rfl⟩ : ∃ k, i = 3 + k := ⟨i - 3, by omega⟩
    refine ⟨k, a, by simpa [List.getElem?_drop] using hi, ?_⟩
    rcases h with h | ⟨hu, j, b, hj3, hj, hb, hm⟩
    · exact Or.inl h
    · obtain ⟨l, rfl⟩ : ∃ l, j = 3 + l := ⟨j - 3, by omega⟩
      exact Or.inr ⟨hu, Or.inr ⟨l, b, by omega, by simpa [List.getElem?_drop] using hb, hm⟩⟩

/-- The full characterisation of `shouldIgnoreCommand`. -/
theorem shouldIgnoreCommand_iff (cls : CStr) (argv : List CStr) :
    shouldIgnoreCommand cls argv = true ↔
      cls = "com.android.commands.am.Am".toList ∧ 4 ≤ argv.length ∧
      (argv[2]? = some "broadcast".toList ∨ argv[2]? = some "start".toList) ∧
      SuppressionPattern argv := by
  unfold shouldIgnoreCommand
  generalize "com.android.commands.am.Am".toList = am
  generalize "broadcast".toList = bc
  generalize "start".toList = st
  by_cases hlen : argv.length < 4
  · have : ¬ 4 ≤ argv.length := by omega
    simp [hlen, this]
  have hlen4 : 4 ≤ argv.length := by omega
  by_cases hcls : cls = am
  swap
  · simp [hcls]
  have h2 : 2 < argv.length := by omega
  have hget : argv[2]? = some argv[2] := List.getElem?_eq_getElem h2
  simp only [hlen, hcls, hget, bne_self_eq_false, Bool.or_self, decide_False,
    Bool.false_eq_true, if_false, Option.some.injEq, true_and, hlen4]
  by_cases hb : argv[2] = bc
  · simp [hb, ignoreLoop_drop_iff]
  by_cases hs : argv[2] = st
  · simp [hs, ignoreLoop_drop_iff]
  simp [hb, hs]

/-! ## Command suppression -/

/-- C1 (as stated, refuted): on the vector `["am","broadcast","-a","x",
"eu.chainfire.supersu.NativeAccess"]`, whose second element is `broadcast` and
which has the superuser action as a later element, and on `["am","start","-n",
"x/.RequestActivity","--user","0"]`, `shouldIgnoreCommand` returns false: the
code compares `argv[2]`, here `-a` and `-n`, with the two command names. -/
theorem shouldIgnoreCommand_second_element_counterexample :
    (["am", "broadcast", "-a", "x", "eu.chainfire.supersu.NativeAccess"].map String.toList)[1]?
        = some "broadcast".toList ∧
      shouldIgnoreCommand "com.android.commands.am.Am".toList
        (["am", "broadcast", "-a", "x", "eu.chainfire.supersu.NativeAccess"].map String.toList)
        = false ∧
      shouldIgnoreCommand "com.android.commands.am.Am".toList
        (["am", "start", "-n", "x/.RequestActivity", "--user", "0"].map String.toList)
        = false := by
  decide

/-- C1 (amended): with target class `com.android.commands.am.Am`, every
argument vector of length at least 4 whose element `argv[2]` is exactly
`broadcast` or `start` is suppressed when some `argv[i]`, `i ≥ 3`, is one of the
two superuser actions, or when some `argv[j]`, `j ≥ 3`, has a marker name as its
last dot-component and a later `argv[i]` is `--user`.  The witnesses of the
claim, preceded by one more element, are suppressed, and the vector with
`com.example.FooActivity` is not. -/
theorem shouldIgnoreCommand_accepts_patterns :
    (∀ argv : List CStr, 4 ≤ argv.length →
      (argv[2]? = some "broadcast".toList ∨ argv[2]? = some "start".toList) →
      ((∃ (i : Nat) (a : CStr), 3 ≤ i ∧ argv[i]? = some a ∧ IsSuperuserAction a) ∨
        (∃ (j i : Nat) (b : CStr), 3 ≤ j ∧ j < i ∧ argv[j]? = some b ∧
          HasMarkerComponent b ∧ argv[i]? = some "--user".toList)) →
      shouldIgnoreCommand "com.android.commands.am.Am".toList argv = true) ∧
    shouldIgnoreCommand "com.android.commands.am.Am".toList
      (["app_process", "am", "broadcast", "-a", "x",
        "eu.chainfire.supersu.NativeAccess"].map String.toList) = true ∧
    shouldIgnoreCommand "com.android.commands.am.Am".toList
      (["app_process", "am", "start", "-n", "x/.RequestActivity", "--user", "0"].map
        String.toList) = true ∧
    shouldIgnoreCommand "com.android.commands.am.Am".toList
      (["app_process", "am", "broadcast", "-a", "x", "com.example.FooActivity"].map
        String.toList) = false ∧
    shouldIgnoreCommand "com.android.commands.am.Am".toList
      (["am", "broadcast", "-a", "x", "com.example.FooActivity"].map String.toList) = false := by
  refine ⟨?_, by decide, by decide, by decide, by decide⟩
  intro argv hlen hcmd hpat
  rw [shouldIgnoreCommand_iff]
  refine ⟨rfl, hlen, hcmd, ?_⟩
  have hlt : ∀ (i : Nat) (a : CStr), argv[i]? = some a → i < argv.length := by
    intro i a hi
    by_contra hc
    rw [List.getElem?_eq_none (by omega)] at hi
    cases hi
  rcases hpat with ⟨i, a, hi3, hi, ha⟩ | ⟨j, i, b, hj3, hji, hb, hm, hi⟩
  · exact ⟨i, a, hi3, hlt i a hi, hi, Or.inl ha⟩
  · exact ⟨i, _, by omega, hlt i _ hi, hi, Or.inr ⟨rfl, j, b, hj3, hji, hb, hm⟩⟩

/-- A concrete instance of C1 (amended): a marker component at index 3 followed
by `--user` at index 5. -/
theorem shouldIgnoreCommand_accepts_patterns_witness :
    shouldIgnoreCommand "com.android.commands.am.Am".toList
      (["app_process", "am", "start", "a/b.SuReceiver", "-n", "--user"].map String.toList)
      = true :=
  shouldIgnoreCommand_accepts_patterns.1
    (["app_process", "am", "start", "a/b.SuReceiver", "-n", "--user"].map String.toList)
    (by decide) (Or.inr (by decide))
    (Or.inr ⟨3, 5, "a/b.SuReceiver".toList, by decide, by decide, by decide,
      ⟨".SuReceiver".toList, ⟨"a/b".toList, "SuReceiver".toList, by decide, by decide, rfl⟩,
        Or.inr (Or.inr rfl)⟩, by decide⟩)

/-- C2: `shouldIgnoreCommand` returns true if and only if the class name is
`com.android.commands.am.Am`, `argc ≥ 4`, `argv[2]` is exactly `broadcast` or
`start`, and some index `3 ≤ i < argc` holds one of the two superuser actions,
or holds `--user` while some `argv[j]`, `3 ≤ j < i`, has the text from its last
`.` onward equal to a marker name; in particular no vector with `argc < 4` is
suppressed. -/
theorem shouldIgnoreCommand_exact (cls : CStr) (argv : List CStr) :
    (shouldIgnoreCommand cls argv = true ↔
      cls = "com.android.commands.am.Am".toList ∧ 4 ≤ argv.length ∧
      (argv[2]? = some "broadcast".toList ∨ argv[2]? = some "start".toList) ∧
      ∃ (i : Nat) (a : CStr), 3 ≤ i ∧ i < argv.length ∧ argv[i]? = some a ∧
        ((a = "com.noshufou.android.su.RESULT".toList ∨
            a = "eu.chainfire.supersu.NativeAccess".toList) ∨
          (a = "--user".toList ∧
            ∃ (j : Nat) (b : CStr), 3 ≤ j ∧ j < i ∧ argv[j]? = some b ∧
              ∃ pre suf, b = pre ++ '.' :: suf ∧ '.' ∉ suf ∧
                ('.' :: suf = ".RequestActivity".toList ∨
                  '.' :: suf = ".NotifyActivity".toList ∨
                  '.' :: suf = ".SuReceiver".toList)))) ∧
    (argv.length < 4 → shouldIgnoreCommand cls argv = false) := by
  constructor
  · rw [shouldIgnoreCommand_iff]
    unfold SuppressionPattern IsSuperuserAction HasMarkerComponent LastDotText IsMarkerName
    constructor
    · rintro ⟨h1, h2, h3, i, a, hi3, hi, ha, h⟩
      refine ⟨h1, h2, h3, i, a, hi3, hi, ha, ?_⟩
      rcases h with h | ⟨hu, j, b, hj3, hj, hb, t, ⟨pre, suf, e1, e2, e3⟩, ht⟩
      · exact Or.inl h
      · exact Or.inr ⟨hu, j, b, hj3, hj, hb, pre, suf, e1, e2, e3 ▸ ht⟩
    · rintro ⟨h1, h2, h3, i, a, hi3, hi, ha, h⟩
      refine ⟨h1, h2, h3, i, a, hi3, hi, ha, ?_⟩
      rcases h with h | ⟨hu, j, b, hj3, hj, hb, pre, suf, e1, e2, ht⟩
      · exact Or.inl h
      · exact Or.inr ⟨hu, j, b, hj3, hj, hb, _, ⟨pre, suf, e1, e2, rfl⟩, ht⟩
  · intro h
    cases hr : shouldIgnoreCommand cls argv with
    | false => rfl
    | true =>
      have := ((shouldIgnoreCommand_iff cls argv).mp hr).2.1
      omega

/-- A concrete instance of C2: a three-element vector full of trigger words is
not suppressed. -/
theorem shouldIgnoreCommand_exact_witness :
    shouldIgnoreCommand "com.android.commands.am.Am".toList
      (["eu.chainfire.supersu.NativeAccess", "x.SuReceiver", "broadcast"].map String.toList)
      = false :=
  (shouldIgnoreCommand_exact "com.android.commands.am.Am".toList
    (["eu.chainfire.supersu.NativeAccess", "x.SuReceiver", "broadcast"].map String.toList)).2
    (by decide)

/-! ## Runtime identification -/

theorem readLine_line (l : CStr) (s : List Char) (n : Nat)
    (hnl : '\n' ∉ l) (hlen : l.length < n) :
    readLine n (l ++ '\n' :: s) = (l ++ ['\n'], s) := by
  induction l generalizing n with
  | nil =>
    cases n with
    | zero => simp at hlen
    | succ n => simp [readLine]
  | cons c cs ih =>
    cases n with
    | zero => simp at hlen
    | succ n =>
      simp only [List.mem_cons, not_or] at hnl
      have hc : c ≠ '\n' := fun h => hnl.1 h.symm
      have hl : cs.length < n := by simpa using hlen
      simp [readLine, hc, ih n hnl.2 hl]

theorem cstrOf_eq_self (b : List Char) (h : NUL ∉ b) : cstrOf b = b := by
  unfold cstrOf
  rw [List.takeWhile_eq_self_iff]
  intro c hc
  simp only [bne_iff_ne, ne_eq]
  rintro rfl
  exact h hc

theorem fgets_line (l : CStr) (s : List Char) (h : FitsLineBuffer l) :
    fgets 256 (l ++ '\n' :: s) = some (l ++ ['\n'], s) := by
  obtain ⟨hlen, hnl, hnul⟩ := h
  have hr := readLine_line l s 255 hnl (by omega)
  have hn : NUL ∉ l ++ ['\n'] := by
    simp only [List.mem_append, List.mem_singleton, not_or]
    exact ⟨hnul, by decide⟩
  unfold fgets
  cases hl : l ++ '\n' :: s with
  | nil => simp at hl
  | cons c cs =>
    simp only [← hl, Nat.add_one_sub_one, hr, cstrOf_eq_self _ hn]

theorem strrchr_append_singleton (l : CStr) (c x : Char) (hx : x ≠ c) :
    strrchr (l ++ [x]) c = (strrchr l c).map (fun r => r ++ [x]) := by
  induction l with
  | nil => simp [strrchr, hx]
  | cons y ys ih =>
    rw [List.cons_append, strrchr, strrchr, ih]
    cases strrchr ys c with
    | some r => simp
    | none =>
      by_cases hy : y = c
      · simp [hy]
      · simp [hy]

/-- The base-name test of the specification coincides with the comparison of
the code on `strrchr(line, '/') + 1`. -/
theorem hasBaseName_iff (l name : CStr) (hname : '/' ∉ name) :
    hasBaseName l name = true ↔ ∃ r, strrchr l '/' = some r ∧ r.drop 1 = name := by
  unfold hasBaseName
  rw [List.isSuffixOf_iff_suffix]
  constructor
  · rintro ⟨pre, h⟩
    exact ⟨'/' :: name, (strrchr_eq_some_iff l '/' _).mpr ⟨pre, name, h.symm, hname, rfl⟩, rfl⟩
  · rintro ⟨r, hr, hd⟩
    obtain ⟨pre, suf, hl, _, rfl⟩ := (strrchr_eq_some_iff l '/' r).mp hr
    simp only [List.drop_succ_cons, List.drop_zero] at hd
    subst hd
    exact ⟨pre, hl.symm⟩

/-- One iteration of the loop on a line that fits the buffer. -/
theorem determineRuntimeLoop_line (d : Defines) (fuel : Nat) (l : CStr) (s : List Char)
    (p : Option CStr) (h : FitsLineBuffer l) :
    determineRuntimeLoop d (fuel + 1) (l ++ '\n' :: s) p =
      match runtimeOfLine d l with
      | some lib => some (true, some lib)
      | none => determineRuntimeLoop d fuel s p := by
  have hdvm := hasBaseName_iff l "libdvm.so".toList (by decide)
  have hart := hasBaseName_iff l "libart.so".toList (by decide)
  have e1 : "libdvm.so\n".toList = "libdvm.so".toList ++ ['\n'] := by decide
  have e2 : "libart.so\n".toList = "libart.so".toList ++ ['\n'] := by decide
  unfold runtimeOfLine
  rw [determineRuntimeLoop, fgets_line l s h]
  simp only [strrchr_append_singleton l '/' '\n' (by decide), e1, e2]
  generalize "libdvm.so".toList = dvm at hdvm ⊢
  generalize "libart.so".toList = art at hart ⊢
  cases hs : strrchr l '/' with
  | none =>
    have h1 : hasBaseName l dvm = false := by
      cases hb : hasBaseName l dvm with
      | false => rfl
      | true => obtain ⟨r, hr, _⟩ := hdvm.mp hb; rw [hs] at hr; cases hr
    have h2 : hasBaseName l art = false := by
      cases hb : hasBaseName l art with
      | false => rfl
      | true => obtain ⟨r, hr, _⟩ := hart.mp hb; rw [hs] at hr; cases hr
    simp [h1, h2]
  | some r =>
    obtain ⟨pre, suf, _, _, rfl⟩ := (strrchr_eq_some_iff l '/' r).mp hs
    have h1 : hasBaseName l dvm = decide (suf = dvm) := by
      rw [Bool.eq_iff_iff, hdvm, hs]
      simp
    have h2 : hasBaseName l art = decide (suf = art) := by
      rw [Bool.eq_iff_iff, hart, hs]
      simp
    simp only [Option.map_some', List.cons_append, List.drop_succ_cons, List.drop_zero, h1, h2,
      beq_iff_eq, List.append_left_inj, decide_eq_true_eq]
    by_cases hd : suf = dvm
    · simp [hd]
    · by_cases ha : suf = art
      · subst ha
        have hd2 : ¬ dvm = suf := fun e => hd e.symm
        simp [hd, hd2]
      · simp [hd, ha, Ne.symm hd, Ne.symm ha]

theorem readLine_rest_le (n : Nat) (s : List Char) : (readLine n s).2.length ≤ s.length := by
  induction s generalizing n with
  | nil => cases n <;> simp [readLine]
  | cons c cs ih =>
    cases n with
    | zero => simp [readLine]
    | succ n =>
      simp only [readLine]
      split
      · simp
      · have := ih n
        simp only [List.length_cons]
        omega

theorem fgets_rest_lt (stream : List Char) (line : CStr) (rest : List Char)
    (h : fgets 256 stream = some (line, rest)) : rest.length < stream.length := by
  cases stream with
  | nil => simp [fgets] at h
  | cons c cs =>
    simp only [fgets, Nat.add_one_sub_one, Option.some.injEq, Prod.mk.injEq] at h
    rw [← h.2]
    simp only [readLine]
    split
    · simp
    · have := readLine_rest_le 254 cs
      simp only [List.length_cons]
      omega

/-- The loop ends within the fuel `determineRuntime` gives it. -/
theorem determineRuntimeLoop_total (d : Defines) (fuel : Nat) (stream : List Char)
    (p : Option CStr) (h : stream.length < fuel) :
    ∃ r, determineRuntimeLoop d fuel stream p = some r := by
  induction fuel generalizing stream with
  | zero => omega
  | succ fuel ih =>
    rw [determineRuntimeLoop]
    cases hf : fgets 256 stream with
    | none => exact ⟨_, rfl⟩
    | some lr =>
      obtain ⟨line, rest⟩ := lr
      have hlt := fgets_rest_lt stream line rest hf
      have hrec := ih rest (by omega)
      simp only
      cases strrchr line '/' with
      | none => exact hrec
      | some libname =>
        simp only
        split
        · exact ⟨_, rfl⟩
        · split
          · exact ⟨_, rfl⟩
          · exact hrec

theorem determineRuntimeLoop_eof (d : Defines) (fuel : Nat) (p : Option CStr) :
    determineRuntimeLoop d (fuel + 1) [] p = some (false, p) := by
  simp [determineRuntimeLoop, fgets]

/-- The loop over a run of lines that fit the buffer, followed by any bytes. -/
theorem determineRuntimeLoop_lines (d : Defines) (p : Option CStr) (lines : List CStr)
    (hfit : ∀ l ∈ lines, FitsLineBuffer l) (k : Nat) (rest : List Char) :
    determineRuntimeLoop d (lines.length + (k + 1)) (listingContent lines ++ rest) p =
      match identifyRuntimeSpec d lines with
      | some lib => some (true, some lib)
      | none => determineRuntimeLoop d (k + 1) rest p := by
  induction lines with
  | nil => simp [listingContent, identifyRuntimeSpec]
  | cons l ls ih =>
    have hl : FitsLineBuffer l := hfit l (List.mem_cons_self _ _)
    have hls : ∀ x ∈ ls, FitsLineBuffer x := fun x hx => hfit x (List.mem_cons_of_mem _ hx)
    have e : (l :: ls).length + (k + 1) = (ls.length + (k + 1)) + 1 := by
      simp only [List.length_cons]; omega
    have e2 : listingContent (l :: ls) ++ rest = l ++ '\n' :: (listingContent ls ++ rest) := by
      simp [listingContent]
    rw [e, e2, determineRuntimeLoop_line d _ l _ p hl, ih hls]
    unfold identifyRuntimeSpec
    rw [List.findSome?_cons]
    cases runtimeOfLine d l with
    | none => rfl
    | some lib => rfl

theorem listingContent_length_ge (lines : List CStr) :
    lines.length ≤ (listingContent lines).length := by
  induction lines with
  | nil => simp [listingContent]
  | cons l ls ih =>
    simp only [listingContent, List.length_cons, List.length_append]
    omega

theorem listingContent_append (a b : List CStr) :
    listingContent (a ++ b) = listingContent a ++ listingContent b := by
  induction a with
  | nil => simp [listingContent]
  | cons l ls ih => simp [listingContent, ih]

theorem readLine_full (a rest : List Char) (n : Nat) (hnl : '\n' ∉ a) (hlen : a.length = n) :
    readLine n (a ++ rest) = (a, rest) := by
  induction a generalizing n with
  | nil =>
    simp only [List.length_nil] at hlen
    subst hlen
    cases rest <;> rfl
  | cons c cs ih =>
    cases n with
    | zero => simp at hlen
    | succ n =>
      simp only [List.mem_cons, not_or] at hnl
      have hc : c ≠ '\n' := fun h => hnl.1 h.symm
      have hl : cs.length = n := by simpa using hlen
      simp [readLine, hc, ih n hnl.2 hl]

theorem determineRuntimeLoop_mono (d : Defines) (fuel : Nat) (s : List Char) (p : Option CStr)
    (r : Bool × Option CStr) (h : determineRuntimeLoop d fuel s p = some r) :
    determineRuntimeLoop d (fuel + 1) s p = some r := by
  induction fuel generalizing s with
  | zero => simp [determineRuntimeLoop] at h
  | succ fuel ih =>
    rw [determineRuntimeLoop] at h ⊢
    cases hf : fgets 256 s with
    | none => rw [hf] at h; exact h
    | some lr =>
      obtain ⟨line, rest⟩ := lr
      rw [hf] at h
      simp only at h ⊢
      cases hs : strrchr line '/' with
      | none =>
        rw [hs] at h
        exact ih rest h
      | some libname =>
        rw [hs] at h
        simp only at h ⊢
        split
        · rename_i h1
          rw [if_pos h1] at h
          exact h
        · rename_i h1
          rw [if_neg h1] at h
          split
          · rename_i h2
            rw [if_pos h2] at h
            exact h
          · rename_i h2
            rw [if_neg h2] at h
            exact ih rest h

theorem determineRuntimeLoop_mono_add (d : Defines) (fuel k : Nat) (s : List Char)
    (p : Option CStr) (r : Bool × Option CStr)
    (h : determineRuntimeLoop d fuel s p = some r) :
    determineRuntimeLoop d (fuel + k) s p = some r := by
  induction k with
  | zero => exact h
  | succ k ih => exact determineRuntimeLoop_mono d (fuel + k) s p r ih

/-- One iteration on a full buffer: 255 bytes without a newline never match. -/
theorem determineRuntimeLoop_chunk (d : Defines) (fuel : Nat) (a rest : List Char)
    (p : Option CStr) (hnl : '\n' ∉ a) (hnul : NUL ∉ a) (hlen : a.length = 255) :
    determineRuntimeLoop d (fuel + 1) (a ++ rest) p = determineRuntimeLoop d fuel rest p := by
  have hfg : fgets 256 (a ++ rest) = some (a, rest) := by
    unfold fgets
    cases hl : a ++ rest with
    | nil =>
      have : (a ++ rest).length = 0 := by rw [hl]; rfl
      simp only [List.length_append] at this
      omega
    | cons c cs =>
      simp only [← hl, Nat.add_one_sub_one, readLine_full a rest 255 hnl hlen,
        cstrOf_eq_self a hnul]
  rw [determineRuntimeLoop, hfg]
  simp only
  cases hs : strrchr a '/' with
  | none => rfl
  | some r =>
    obtain ⟨pre, suf, ha, _, rfl⟩ := (strrchr_eq_some_iff a '/' r).mp hs
    have hsuf : '\n' ∉ suf := by
      intro hm
      apply hnl
      rw [ha]
      simp [hm]
    have h1 : ("libdvm.so\n".toList == List.drop 1 ('/' :: suf)) = false := by
      simp only [List.drop_succ_cons, List.drop_zero, beq_eq_false_iff_ne, ne_eq]
      intro e
      apply hsuf
      rw [← e]
      decide
    have h2 : ("libart.so\n".toList == List.drop 1 ('/' :: suf)) = false := by
      simp only [List.drop_succ_cons, List.drop_zero, beq_eq_false_iff_ne, ne_eq]
      intro e
      apply hsuf
      rw [← e]
      decide
    simp only [h1, h2, Bool.false_eq_true, if_false]

theorem hasBaseName_of_drop (l name : CStr) (n : Nat)
    (h : hasBaseName (l.drop n) name = true) : hasBaseName l name = true := by
  unfold hasBaseName at h ⊢
  rw [List.isSuffixOf_iff_suffix] at h ⊢
  exact h.trans (List.drop_suffix n l)

theorem runtimeOfLine_drop_none (d : Defines) (l : CStr) (n : Nat)
    (h : runtimeOfLine d l = none) : runtimeOfLine d (l.drop n) = none := by
  unfold runtimeOfLine at h ⊢
  generalize "libdvm.so".toList = dvm at h ⊢
  generalize "libart.so".toList = art at h ⊢
  cases h1 : hasBaseName (l.drop n) dvm with
  | true =>
    rw [hasBaseName_of_drop l dvm n h1] at h
    simp at h
  | false =>
    cases h2 : hasBaseName (l.drop n) art with
    | true =>
      rw [hasBaseName_of_drop l art n h2] at h
      cases h3 : hasBaseName l dvm <;> simp [h3] at h
    | false => simp

/-- A line of any length without a runtime base name is skipped. -/
theorem loopEndsWith_skip (d : Defines) (p : Option CStr) (r : Bool × Option CStr)
    (s : List Char) (hs : LoopEndsWith d s p r) (n : Nat) :
    ∀ l : CStr, l.length = n → IsTextLine l → runtimeOfLine d l = none →
      LoopEndsWith d (l ++ '\n' :: s) p r := by
  induction n using Nat.strong_induction_on with
  | _ n ih =>
    intro l hlen htext hnone
    by_cases hshort : l.length ≤ 254
    · obtain ⟨fuel, hf⟩ := hs
      refine ⟨fuel + 1, ?_⟩
      rw [determineRuntimeLoop_line d fuel l s p ⟨hshort, htext.1, htext.2⟩, hnone]
      exact hf
    · have hsplit : l ++ '\n' :: s = l.take 255 ++ (l.drop 255 ++ '\n' :: s) := by
        rw [← List.append_assoc, List.take_append_drop]
      have htake_len : (l.take 255).length = 255 := by
        rw [List.length_take]; omega
      have htake_nl : '\n' ∉ l.take 255 := fun hm => htext.1 (List.mem_of_mem_take hm)
      have htake_nul : NUL ∉ l.take 255 := fun hm => htext.2 (List.mem_of_mem_take hm)
      have hdrop_text : IsTextLine (l.drop 255) :=
        ⟨fun hm => htext.1 (List.mem_of_mem_drop hm), fun hm => htext.2 (List.mem_of_mem_drop hm)⟩
      have hdrop_len : (l.drop 255).length < n := by
        rw [List.length_drop]; omega
      obtain ⟨fuel, hf⟩ := ih _ hdrop_len (l.drop 255) rfl hdrop_text
        (runtimeOfLine_drop_none d l 255 hnone)
      refine ⟨fuel + 1, ?_⟩
      rw [hsplit, determineRuntimeLoop_chunk d fuel _ _ p htake_nl htake_nul htake_len]
      exact hf

theorem determineRuntime_total (d : Defines) (maps : Option (List Char)) (p : Option CStr) :
    ∃ r, determineRuntime d maps p = some r := by
  cases maps with
  | none => exact ⟨_, rfl⟩
  | some content => exact determineRuntimeLoop_total d _ content p (Nat.lt_succ_self _)

theorem determineRuntime_of_loopEndsWith (d : Defines) (content : List Char)
    (p : Option CStr) (r : Bool × Option CStr) (h : LoopEndsWith d content p r) :
    determineRuntime d (some content) p = some r := by
  obtain ⟨fuel, hf⟩ := h
  obtain ⟨r2, hr2⟩ := determineRuntimeLoop_total d (content.length + 1) content p
    (Nat.lt_succ_self _)
  have h1 := determineRuntimeLoop_mono_add d fuel (content.length + 1) content p r hf
  have h2 := determineRuntimeLoop_mono_add d (content.length + 1) fuel content p r2 hr2
  rw [Nat.add_comm] at h2
  rw [h1] at h2
  simp only [determineRuntime, hr2]
  exact h2.symm

theorem loopEndsWith_not_found (d : Defines) (p : Option CStr) (lines : List CStr)
    (htext : ∀ l ∈ lines, IsTextLine l) (hnone : identifyRuntimeSpec d lines = none) :
    LoopEndsWith d (listingContent lines) p (false, p) := by
  induction lines with
  | nil => exact ⟨1, determineRuntimeLoop_eof d 0 p⟩
  | cons l ls ih =>
    unfold identifyRuntimeSpec at hnone ih
    rw [List.findSome?_cons] at hnone
    cases hl : runtimeOfLine d l with
    | some lib => rw [hl] at hnone; cases hnone
    | none =>
      rw [hl] at hnone
      have hrec := ih (fun x hx => htext x (List.mem_cons_of_mem _ hx)) hnone
      exact loopEndsWith_skip d p _ _ hrec l.length l rfl
        (htext l (List.mem_cons_self _ _)) hl

theorem loopEndsWith_first_match (d : Defines) (p : Option CStr) (pre : List CStr)
    (l : CStr) (rest : List Char) (lib : CStr)
    (hpre : ∀ x ∈ pre, IsTextLine x ∧ runtimeOfLine d x = none)
    (hl : FitsLineBuffer l) (hlib : runtimeOfLine d l = some lib) :
    LoopEndsWith d (listingContent pre ++ (l ++ '\n' :: rest)) p (true, some lib) := by
  induction pre with
  | nil =>
    refine ⟨1, ?_⟩
    rw [listingContent, List.nil_append, determineRuntimeLoop_line d 0 l rest p hl, hlib]
  | cons x xs ih =>
    have hx := hpre x (List.mem_cons_self _ _)
    have hrec := ih (fun y hy => hpre y (List.mem_cons_of_mem _ hy))
    have e : listingContent (x :: xs) ++ (l ++ '\n' :: rest) =
        x ++ '\n' :: (listingContent xs ++ (l ++ '\n' :: rest)) := by
      simp [listingContent]
    rw [e]
    exact loopEndsWith_skip d p _ _ hrec x.length x rfl hx.1 hx.2

/-- C3 (as stated, refuted): a one-line listing whose line is 255 bytes long
and has base name `libart.so` is not identified, because `fgets` returns the
line without its newline; and behind such a line a later `libdvm.so` line is
returned although it is not the first match. -/
theorem determineRuntime_long_line_counterexample :
    identifyRuntimeSpec sampleDefines
        ["/data/".toList ++ List.replicate 239 'a' ++ "/libart.so".toList]
      = some sampleDefines.XPOSED_LIB_ART ∧
    determineRuntime sampleDefines
        (some (listingContent ["/data/".toList ++ List.replicate 239 'a' ++ "/libart.so".toList]))
        none
      = some (false, none) ∧
    identifyRuntimeSpec sampleDefines
        ["/data/".toList ++ List.replicate 239 'a' ++ "/libart.so".toList,
          "/system/lib/libdvm.so".toList]
      = some sampleDefines.XPOSED_LIB_ART ∧
    determineRuntime sampleDefines
        (some (listingContent ["/data/".toList ++ List.replicate 239 'a' ++ "/libart.so".toList,
          "/system/lib/libdvm.so".toList]))
        none
      = some (true, some sampleDefines.XPOSED_LIB_DALVIK) := by
  set_option maxRecDepth 100000 in decide

/-- C3 (amended): `determineRuntime` returns a result for every file content.
For every text listing in which no line has base name `libdvm.so` or
`libart.so` it returns false and leaves the output path untouched, whatever the
line lengths.  When the first line with such a base name is at most 254 bytes
long (so that `fgets` reads it whole into the 256-byte buffer), it succeeds
with the Dalvik path for `libdvm.so` and the ART path for `libart.so`; the
lines before that line and the bytes after it do not affect the result.  In
particular, on a listing whose lines all fit the buffer the result is the one
of `identifyRuntimeSpec`.  A failed `fopen` returns false and leaves the output
path untouched. -/
theorem determineRuntime_first_match (d : Defines) (p : Option CStr) :
    (∀ maps, ∃ r, determineRuntime d maps p = some r) ∧
    (∀ lines : List CStr, (∀ l ∈ lines, IsTextLine l) →
      identifyRuntimeSpec d lines = none →
      determineRuntime d (some (listingContent lines)) p = some (false, p)) ∧
    (∀ (pre : List CStr) (l : CStr) (rest : List Char) (lib : CStr),
      (∀ x ∈ pre, IsTextLine x ∧ runtimeOfLine d x = none) →
      FitsLineBuffer l → runtimeOfLine d l = some lib →
      determineRuntime d (some (listingContent pre ++ (l ++ '\n' :: rest))) p =
        some (true, some lib)) ∧
    (∀ lines : List CStr, (∀ l ∈ lines, FitsLineBuffer l) →
      determineRuntime d (some (listingContent lines)) p =
        some (match identifyRuntimeSpec d lines with
          | some lib => (true, some lib)
          | none => (false, p))) ∧
    determineRuntime d none p = some (false, p) := by
  refine ⟨fun maps => determineRuntime_total d maps p, ?_, ?_, ?_, rfl⟩
  · intro lines htext hnone
    exact determineRuntime_of_loopEndsWith d _ p _ (loopEndsWith_not_found d p lines htext hnone)
  · intro pre l rest lib hpre hl hlib
    exact determineRuntime_of_loopEndsWith d _ p _
      (loopEndsWith_first_match d p pre l rest lib hpre hl hlib)
  · intro lines hfit
    have hlen := listingContent_length_ge lines
    obtain ⟨k, hk⟩ : ∃ k, (listingContent lines).length + 1 = lines.length + (k + 1) :=
      ⟨(listingContent lines).length - lines.length, by omega⟩
    have h := determineRuntimeLoop_lines d p lines hfit k []
    rw [List.append_nil, ← hk] at h
    simp only [determineRuntime, h]
    cases identifyRuntimeSpec d lines with
    | none => exact determineRuntimeLoop_eof d k p
    | some lib => rfl

/-- A concrete instance of C3 (amended): a listing whose first line is 300
bytes long and whose second line maps `libart.so`. -/
theorem determineRuntime_first_match_witness :
    determineRuntime sampleDefines
      (some (listingContent ["/data/".toList ++ List.replicate 294 'a']
        ++ ("b6f00000-b6f01000 r-xp 00000000 b3:15 1234 /system/lib/libart.so".toList
          ++ '\n' :: "b7000000-b7001000 r-xp 00000000 b3:15 7 /system/lib/libdvm.so\n".toList)))
      none = some (true, some sampleDefines.XPOSED_LIB_ART) :=
  (determineRuntime_first_match sampleDefines none).2.2.1
    ["/data/".toList ++ List.replicate 294 'a']
    "b6f00000-b6f01000 r-xp 00000000 b3:15 1234 /system/lib/libart.so".toList
    "b7000000-b7001000 r-xp 00000000 b3:15 7 /system/lib/libdvm.so\n".toList
    sampleDefines.XPOSED_LIB_ART
    (by
      intro x hx
      rw [List.mem_singleton.mp hx]
      exact ⟨⟨by set_option maxRecDepth 100000 in decide,
        by set_option maxRecDepth 100000 in decide⟩,
        by set_option maxRecDepth 100000 in decide⟩)
    ⟨by decide, by decide, by decide⟩
    (by decide)

/-! ## Classpath injection -/

/-- C4: with the jar readable and `CLASSPATH` unset, `addJarToClasspath`
returns true and sets `CLASSPATH` to exactly the jar path; with the jar readable
and `CLASSPATH = X` such that `len(jar) + 1 + len(X)` and the terminator fit
4096 bytes, it returns true and sets `CLASSPATH` to `jar ++ ":" ++ X`; in both
cases no other variable and no file changes.  With the jar readable and the
combined string too long for the buffer (its length still an `int`), or with the
jar not accessible, it returns false and leaves the whole state unchanged. -/
theorem addJarToClasspath_all_or_nothing (d : Defines) (w : World) :
    (access w d.XPOSED_JAR .R_OK = 0 → w.env "CLASSPATH".toList = none →
      (addJarToClasspath d w).1 = true ∧
      (addJarToClasspath d w).2.env "CLASSPATH".toList = some d.XPOSED_JAR ∧
      (∀ n, n ≠ "CLASSPATH".toList → (addJarToClasspath d w).2.env n = w.env n) ∧
      (addJarToClasspath d w).2.files = w.files) ∧
    (∀ X, access w d.XPOSED_JAR .R_OK = 0 → w.env "CLASSPATH".toList = some X →
      d.XPOSED_JAR.length + 1 + X.length + 1 ≤ 4096 →
      (addJarToClasspath d w).1 = true ∧
      (addJarToClasspath d w).2.env "CLASSPATH".toList = some (d.XPOSED_JAR ++ ':' :: X) ∧
      (∀ n, n ≠ "CLASSPATH".toList → (addJarToClasspath d w).2.env n = w.env n) ∧
      (addJarToClasspath d w).2.files = w.files) ∧
    (∀ X, access w d.XPOSED_JAR .R_OK = 0 → w.env "CLASSPATH".toList = some X →
      4096 < d.XPOSED_JAR.length + 1 + X.length + 1 →
      d.XPOSED_JAR.length + 1 + X.length < 2 ^ 31 →
      addJarToClasspath d w = (false, w)) ∧
    (access w d.XPOSED_JAR .R_OK ≠ 0 → addJarToClasspath d w = (false, w)) := by
  generalize hcp : "CLASSPATH".toList = cp
  refine ⟨?_, ?_, ?_, ?_⟩
  · intro hacc hnone
    simp only [addJarToClasspath, hacc, getenv, hcp, hnone, if_true]
    refine ⟨by simp, by simp [setenv], ?_, by simp [setenv]⟩
    intro n hn
    simp [setenv, hn]
  · intro X hacc hsome hfit
    have hlen : (d.XPOSED_JAR ++ ':' :: X).length = d.XPOSED_JAR.length + 1 + X.length := by
      simp only [List.length_append, List.length_cons]; omega
    have h31 : (d.XPOSED_JAR ++ ':' :: X).length < 2 ^ 31 := by rw [hlen]; omega
    have hnot : ¬ ((((d.XPOSED_JAR ++ ':' :: X).length : Nat) : Int) ≥ 4096) := by
      rw [hlen]; omega
    have htake : (d.XPOSED_JAR ++ ':' :: X).take (4096 - 1) = d.XPOSED_JAR ++ ':' :: X := by
      apply List.take_of_length_le
      rw [hlen]; omega
    simp only [addJarToClasspath, hacc, getenv, hcp, hsome, if_true, snprintfColon, h31, hnot,
      if_false, htake]
    refine ⟨by simp, by simp [setenv], ?_, by simp [setenv]⟩
    intro n hn
    simp [setenv, hn]
  · intro X hacc hsome hbig hint
    have hlen : (d.XPOSED_JAR ++ ':' :: X).length = d.XPOSED_JAR.length + 1 + X.length := by
      simp only [List.length_append, List.length_cons]; omega
    have h31 : (d.XPOSED_JAR ++ ':' :: X).length < 2 ^ 31 := by rw [hlen]; omega
    have hge : (((d.XPOSED_JAR ++ ':' :: X).length : Nat) : Int) ≥ 4096 := by
      rw [hlen]; omega
    simp only [addJarToClasspath, hacc, getenv, hcp, hsome, if_true, snprintfColon, h31, hge]
  · intro hacc
    simp only [addJarToClasspath, hacc, if_false]

/-! ## The activation gate -/

theorem isDisabled_iff (d : Defines) (w : World) :
    isDisabled d w = true ↔ ∃ f, w.files d.XPOSED_LOAD_BLOCKER = some f := by
  unfold isDisabled zygote_access access
  cases h : w.files d.XPOSED_LOAD_BLOCKER with
  | none => simp
  | some f => simp

theorem initSafemode_env (pf : Platform) (d : Defines) (zygote : Bool) (w : World) :
    (initSafemode pf d zygote w).1.env = w.env := by
  unfold initSafemode disableXposed openCreate
  repeat' split
  all_goals rfl

theorem initializeXposed_past (cfg : BuildConfig) (d : Defines) (pf : Platform)
    (zygote startSystemServer : Bool) (className : CStr) (argv : List CStr)
    (x : XposedShared) (w : World)
    (h : PastServiceStartup cfg pf zygote startSystemServer className x) :
    (initializeXposed cfg d pf zygote startSystemServer className argv x w).result =
        (initDecision d zygote (initShared cfg pf zygote startSystemServer className x) argv
          (initSafemode pf d zygote w).1).1 ∧
      (initializeXposed cfg d pf zygote startSystemServer className argv x w).world =
        (initDecision d zygote (initShared cfg pf zygote startSystemServer className x) argv
          (initSafemode pf d zygote w).1).2 := by
  obtain ⟨hg, hs⟩ := h
  have hgate : (!cfg.XPOSED_ENABLE_FOR_TOOLS && !zygote) = false := by
    rcases hg with hg | hg <;> simp [hg]
  simp [initializeXposed, hgate, hs]

/-- C7: for every run of `initialize` that gets past the start of the services,
the result is true (Proceed) if and only if the load-blocker flag file does not
exist when it is checked, and the process is a zygote (launcher host) or
`shouldIgnoreCommand` does not match, and `addJarToClasspath` succeeds; when the
run aborts through the flag file or the heuristic, the environment (`CLASSPATH`
included) is as before; and `isDisabled` is true exactly when the flag file
exists, whatever its content. -/
theorem initialize_final_decision (cfg : BuildConfig) (d : Defines) (pf : Platform)
    (zygote startSystemServer : Bool) (className : CStr) (argv : List CStr)
    (x : XposedShared) (w : World)
    (h : PastServiceStartup cfg pf zygote startSystemServer className x) :
    ((initializeXposed cfg d pf zygote startSystemServer className argv x w).result = true ↔
      (initSafemode pf d zygote w).1.files d.XPOSED_LOAD_BLOCKER = none ∧
      (zygote = true ∨ shouldIgnoreCommand className argv = false) ∧
      (addJarToClasspath d (initSafemode pf d zygote w).1).1 = true) ∧
    (((∃ f, (initSafemode pf d zygote w).1.files d.XPOSED_LOAD_BLOCKER = some f) ∨
        (zygote = false ∧ shouldIgnoreCommand className argv = true)) →
      (initializeXposed cfg d pf zygote startSystemServer className argv x w).result = false ∧
      (initializeXposed cfg d pf zygote startSystemServer className argv x w).world.env
        = w.env) ∧
    (∀ (v : World) (c1 c2 : List Char) (r1 r2 : Bool),
      (isDisabled d v = true ↔ ∃ f, v.files d.XPOSED_LOAD_BLOCKER = some f) ∧
      isDisabled d { v with files := fun q =>
          if q = d.XPOSED_LOAD_BLOCKER then some ⟨c1, r1⟩ else v.files q } =
        isDisabled d { v with files := fun q =>
          if q = d.XPOSED_LOAD_BLOCKER then some ⟨c2, r2⟩ else v.files q }) := by
  obtain ⟨hres, hworld⟩ := initializeXposed_past cfg d pf zygote startSystemServer className
    argv x w h
  rw [hres, hworld]
  have hcls : (initShared cfg pf zygote startSystemServer className x).startClassName
      = className := by
    unfold initShared; rfl
  generalize hw1 : (initSafemode pf d zygote w).1 = w1
  have henv : w1.env = w.env := by rw [← hw1]; exact initSafemode_env pf d zygote w
  have hdis := isDisabled_iff d w1
  refine ⟨?_, ?_, ?_⟩
  · unfold initDecision
    rw [hcls]
    cases hd : isDisabled d w1 with
    | true =>
      obtain ⟨f, hf⟩ := hdis.mp hd
      simp [hf]
    | false =>
      have hnone : w1.files d.XPOSED_LOAD_BLOCKER = none := by
        cases hf : w1.files d.XPOSED_LOAD_BLOCKER with
        | none => rfl
        | some f => rw [hdis.mpr ⟨f, hf⟩] at hd; cases hd
      cases zygote <;> cases hi : shouldIgnoreCommand className argv <;> simp [hnone]
  · intro hc
    unfold initDecision
    rw [hcls]
    rcases hc with hf | ⟨hz, hi⟩
    · simp [hdis.mpr hf, henv]
    · simp [hz, hi, henv]
  · intro v c1 c2 r1 r2
    refine ⟨isDisabled_iff d v, ?_⟩
    simp [isDisabled, zygote_access, access]

/-- The restricted-mode gate is passed and the services are the only thing
that can still return early. -/
theorem initializeXposed_gate (cfg : BuildConfig) (d : Defines) (pf : Platform)
    (zygote startSystemServer : Bool) (className : CStr) (argv : List CStr)
    (x : XposedShared) (w : World)
    (hg : cfg.XPOSED_ENABLE_FOR_TOOLS = true ∨ zygote = true) :
    (initializeXposed cfg d pf zygote startSystemServer className argv x w).shared =
        initShared cfg pf zygote startSystemServer className x ∧
    (initializeXposed cfg d pf zygote startSystemServer className argv x w).events =
        initPreamble zygote startSystemServer ++
          (initServices cfg pf startSystemServer
            (initShared cfg pf zygote startSystemServer className x)).2 ++
          (if (initServices cfg pf startSystemServer
              (initShared cfg pf zygote startSystemServer className x)).1
            then (initSafemode pf d zygote w).2 else []) ∧
    ((initServices cfg pf startSystemServer
        (initShared cfg pf zygote startSystemServer className x)).1 = false →
      (initializeXposed cfg d pf zygote startSystemServer className argv x w).result = false ∧
      (initializeXposed cfg d pf zygote startSystemServer className argv x w).world = w) := by
  have hgate : (!cfg.XPOSED_ENABLE_FOR_TOOLS && !zygote) = false := by
    rcases hg with hg | hg <;> simp [hg]
  cases hs : (initServices cfg pf startSystemServer
      (initShared cfg pf zygote startSystemServer className x)).1 <;>
    simp [initializeXposed, hgate, hs]

theorem startAll_not_mem_preamble (zygote sss : Bool) :
    Event.startAll ∉ initPreamble zygote sss ∧ Event.startMembased ∉ initPreamble zygote sss := by
  cases zygote <;> cases sss <;> decide

theorem startAll_not_mem_safemode (pf : Platform) (d : Defines) (zygote : Bool) (w : World) :
    Event.startAll ∉ (initSafemode pf d zygote w).2 ∧
      Event.startMembased ∉ (initSafemode pf d zygote w).2 := by
  unfold initSafemode
  repeat' split
  all_goals simp

/-- C8 (as stated, refuted): with SELinux enabled but not enforcing (posture
Permissive) a zygote that does not start the system server starts the membased
tier and, when that fails, `initialize` returns false at this step; and a
standalone tool under an enforcing posture starts the membased tier as well. -/
theorem initialize_service_tier_counterexample :
    securityPosture (initializeXposed sampleConfig sampleDefines samplePermissive true false []
        [] sampleShared sampleWorld).shared = SecurityPostureState.Permissive ∧
    Event.startMembased ∈ (initializeXposed sampleConfig sampleDefines samplePermissive true
        false [] [] sampleShared sampleWorld).events ∧
    (initializeXposed sampleConfig sampleDefines samplePermissive true false []
        [] sampleShared sampleWorld).result = false ∧
    (initializeXposed sampleConfig sampleDefines { samplePermissive with startMembased := true }
        true false [] [] sampleShared sampleWorld).result = true ∧
    securityPosture (initializeXposed sampleConfig sampleDefines sampleEnforcing false false
        "com.android.commands.pm.Pm".toList [] sampleShared sampleWorld).shared
      = SecurityPostureState.Enforcing ∧
    Event.startMembased ∈ (initializeXposed sampleConfig sampleDefines sampleEnforcing false
        false "com.android.commands.pm.Pm".toList [] sampleShared sampleWorld).events := by
  decide

/-- C8 (amended): in every run of `initialize` that passes the restricted-mode
gate, the full service tier (`startAll`) is started exactly when
`startSystemServer` is set; the membased tier is started exactly when
`startSystemServer` is not set and the security posture is not Disabled (that
is, Permissive or Enforcing), whether or not the process is a zygote; a tier
that fails to start makes `initialize` return false with the state untouched;
and when neither holds (no system server, posture Disabled) no tier is started
and the outcome does not depend on what the service starters would answer. -/
theorem initialize_service_tier (cfg : BuildConfig) (d : Defines) (pf : Platform)
    (zygote startSystemServer : Bool) (className : CStr) (argv : List CStr)
    (x : XposedShared) (w : World)
    (hg : cfg.XPOSED_ENABLE_FOR_TOOLS = true ∨ zygote = true) :
    (Event.startAll ∈
        (initializeXposed cfg d pf zygote startSystemServer className argv x w).events ↔
      startSystemServer = true) ∧
    (Event.startMembased ∈
        (initializeXposed cfg d pf zygote startSystemServer className argv x w).events ↔
      startSystemServer = false ∧
        securityPosture
            (initializeXposed cfg d pf zygote startSystemServer className argv x w).shared
          ≠ SecurityPostureState.Disabled) ∧
    (startSystemServer = true → pf.startAll = false →
      (initializeXposed cfg d pf zygote startSystemServer className argv x w).result = false ∧
      (initializeXposed cfg d pf zygote startSystemServer className argv x w).world = w) ∧
    (startSystemServer = false →
      securityPosture
          (initializeXposed cfg d pf zygote startSystemServer className argv x w).shared
        ≠ SecurityPostureState.Disabled →
      pf.startMembased = false →
      (initializeXposed cfg d pf zygote startSystemServer className argv x w).result = false ∧
      (initializeXposed cfg d pf zygote startSystemServer className argv x w).world = w) ∧
    (startSystemServer = false →
      securityPosture
          (initializeXposed cfg d pf zygote startSystemServer className argv x w).shared
        = SecurityPostureState.Disabled →
      ∀ a b : Bool,
        initializeXposed cfg d { pf with startAll := a, startMembased := b } zygote
            startSystemServer className argv x w =
          initializeXposed cfg d pf zygote startSystemServer className argv x w) := by
  obtain ⟨hsh, hev, hfail⟩ :=
    initializeXposed_gate cfg d pf zygote startSystemServer className argv x w hg
  have hpre := startAll_not_mem_preamble zygote startSystemServer
  have hsm := startAll_not_mem_safemode pf d zygote w
  have hgate : (!cfg.XPOSED_ENABLE_FOR_TOOLS && !zygote) = false := by
    rcases hg with hg | hg <;> simp [hg]
  have hen : (initShared cfg pf zygote startSystemServer className x).isSELinuxEnabled
      = (cfg.XPOSED_WITH_SELINUX && decide (pf.is_selinux_enabled = 1)) := by
    unfold initShared
    cases cfg.XPOSED_WITH_SELINUX <;> simp
  have hpost : securityPosture (initShared cfg pf zygote startSystemServer className x)
      ≠ SecurityPostureState.Disabled ↔
      (initShared cfg pf zygote startSystemServer className x).isSELinuxEnabled = true := by
    unfold securityPosture
    cases (initShared cfg pf zygote startSystemServer className x).isSELinuxEnabled <;>
      cases (initShared cfg pf zygote startSystemServer className x).isSELinuxEnforcing <;>
      simp
  have h5 : startSystemServer = false →
      securityPosture (initShared cfg pf zygote startSystemServer className x)
        = SecurityPostureState.Disabled →
      ∀ a b : Bool,
        initializeXposed cfg d { pf with startAll := a, startMembased := b } zygote
            startSystemServer className argv x w =
          initializeXposed cfg d pf zygote startSystemServer className argv x w := by
    intro h1 h2 a b
    have hen2 : (cfg.XPOSED_WITH_SELINUX && decide (pf.is_selinux_enabled = 1)) = false := by
      rw [← hen]
      cases he : (initShared cfg pf zygote startSystemServer className x).isSELinuxEnabled with
      | false => rfl
      | true =>
        exfalso
        exact hpost.mpr he h2
    simp [initializeXposed, hgate, initServices, initShared, h1, hen2, initSafemode,
      disableXposed]
  rw [hsh, hev, hpost]
  have hsv : initServices cfg pf startSystemServer
      (initShared cfg pf zygote startSystemServer className x) =
      if startSystemServer then (pf.startAll, [Event.startAll])
      else if (initShared cfg pf zygote startSystemServer className x).isSELinuxEnabled then
        (pf.startMembased, [Event.startMembased])
      else (true, []) := by
    unfold initServices
    rw [hen]
    cases cfg.XPOSED_WITH_SELINUX <;> simp
  rw [hsv] at hfail ⊢
  generalize (initShared cfg pf zygote startSystemServer className x).isSELinuxEnabled = en
    at hfail hen ⊢
  refine ⟨?_, ?_, ?_, ?_, ?_⟩
  · cases startSystemServer <;> cases en <;>
      simp [hpre.1, hsm.1]
  · cases startSystemServer <;> cases en <;>
      simp [hpre.2, hsm.2]
  · intro h1 h2
    apply hfail
    simp [h1, h2]
  · intro h1 h2 h3
    apply hfail
    simp [h1, h2, h3]
  · exact h5

/-- A concrete instance of C8 (amended): a zygote that starts the system server
on a platform without SELinux. -/
theorem initialize_service_tier_witness :
    Event.startAll ∈ (initializeXposed sampleConfig sampleDefines sampleNoSelinux true true []
        [] sampleShared sampleWorld).events :=
  (initialize_service_tier sampleConfig sampleDefines sampleNoSelinux true true [] []
    sampleShared sampleWorld (Or.inr rfl)).1.mpr rfl

/-- A concrete instance of C7: a zygote on a platform without SELinux, with a
readable jar and no load blocker. -/
theorem initialize_final_decision_witness :
    PastServiceStartup sampleConfig sampleNoSelinux true false [] sampleShared ∧
    ((initializeXposed sampleConfig sampleDefines sampleNoSelinux true false [] []
        sampleShared sampleWorld).result = true ↔
      (initSafemode sampleNoSelinux sampleDefines true sampleWorld).1.files
          sampleDefines.XPOSED_LOAD_BLOCKER = none ∧
      (true = true ∨ shouldIgnoreCommand [] [] = false) ∧
      (addJarToClasspath sampleDefines
        (initSafemode sampleNoSelinux sampleDefines true sampleWorld).1).1 = true) :=
  ⟨⟨Or.inl rfl, by decide⟩,
    (initialize_final_decision sampleConfig sampleDefines sampleNoSelinux true false [] []
      sampleShared sampleWorld ⟨Or.inl rfl, by decide⟩).1⟩

/-! ## Safemode -/

theorem disableXposed_exists (pf : Platform) (d : Defines) (w : World)
    (f : File) (h : w.files d.XPOSED_LOAD_BLOCKER = some f) : disableXposed pf d w = w := by
  unfold disableXposed openCreate
  cases pf.openSucceeds <;> simp [h]

theorem disableXposed_creates (pf : Platform) (d : Defines) (w : World)
    (h : pf.openSucceeds = true) :
    ∃ f, (disableXposed pf d w).files d.XPOSED_LOAD_BLOCKER = some f := by
  unfold disableXposed openCreate
  cases hf : w.files d.XPOSED_LOAD_BLOCKER with
  | none => simp [h]
  | some f => simp [h, hf]

theorem disableXposed_frame (pf : Platform) (d : Defines) (w : World) :
    (disableXposed pf d w).env = w.env ∧
      ∀ q, q ≠ d.XPOSED_LOAD_BLOCKER → (disableXposed pf d w).files q = w.files q := by
  unfold disableXposed openCreate
  cases pf.openSucceeds <;> cases hf : w.files d.XPOSED_LOAD_BLOCKER <;> simp
  intro q hq
  simp [hq]

theorem disableXposed_idem (pf : Platform) (d : Defines) (w : World) :
    disableXposed pf d (disableXposed pf d w) = disableXposed pf d w := by
  cases hs : pf.openSucceeds with
  | true =>
    obtain ⟨f, hf⟩ := disableXposed_creates pf d w hs
    exact disableXposed_exists pf d _ f hf
  | false =>
    simp [disableXposed, openCreate, hs]

theorem addJarToClasspath_files (d : Defines) (w : World) :
    (addJarToClasspath d w).2.files = w.files := by
  unfold addJarToClasspath
  split
  · split
    · rfl
    · simp only
      split <;> rfl
  · rfl

theorem initDecision_files (d : Defines) (zygote : Bool) (x : XposedShared)
    (argv : List CStr) (w : World) : (initDecision d zygote x argv w).2.files = w.files := by
  unfold initDecision
  split
  · rfl
  · exact addJarToClasspath_files d w

/-- Every run of `initialize` leaves the files as the safemode step leaves
them, or untouched when it returns before that step. -/
theorem initializeXposed_files (cfg : BuildConfig) (d : Defines) (pf : Platform)
    (zygote startSystemServer : Bool) (className : CStr) (argv : List CStr)
    (x : XposedShared) (w : World) :
    (initializeXposed cfg d pf zygote startSystemServer className argv x w).world.files
        = w.files ∨
      (initializeXposed cfg d pf zygote startSystemServer className argv x w).world.files
        = (initSafemode pf d zygote w).1.files := by
  unfold initializeXposed
  split
  · exact Or.inl rfl
  · simp only
    split
    · exact Or.inl rfl
    · exact Or.inr (initDecision_files d zygote _ argv _)

/-- C10: in a zygote (launcher-host) run of `initialize` in which the services
start, if the safemode-disable flag file is absent, the safemode trigger check
reports true and `open` succeeds, then afterwards the load-blocker flag file
exists, `initialize` returns false, the environment (`CLASSPATH` included) is
unchanged, a load blocker that already existed is the same file as before and
every other file is untouched; `disableXposed` run twice leaves the state of
one run, and is the identity when the file exists; when the process is not a
zygote or the safemode-disable flag file is present, `initialize` leaves all
files, the load blocker among them, as they were. -/
theorem safemode_opt_out (cfg : BuildConfig) (d : Defines) (pf : Platform)
    (startSystemServer : Bool) (className : CStr) (argv : List CStr)
    (x : XposedShared) (w : World) :
    (PastServiceStartup cfg pf true startSystemServer className x →
      w.files d.XPOSED_SAFEMODE_DISABLE = none →
      pf.detectSafemodeTrigger (shouldSkipSafemodeDelay d w) = true →
      pf.openSucceeds = true →
      (∃ f, (initializeXposed cfg d pf true startSystemServer className argv x w).world.files
          d.XPOSED_LOAD_BLOCKER = some f) ∧
      (initializeXposed cfg d pf true startSystemServer className argv x w).result = false ∧
      (initializeXposed cfg d pf true startSystemServer className argv x w).world.env = w.env ∧
      (∀ f, w.files d.XPOSED_LOAD_BLOCKER = some f →
        (initializeXposed cfg d pf true startSystemServer className argv x w).world.files
          d.XPOSED_LOAD_BLOCKER = some f) ∧
      (∀ q, q ≠ d.XPOSED_LOAD_BLOCKER →
        (initializeXposed cfg d pf true startSystemServer className argv x w).world.files q
          = w.files q) ∧
      Event.disableXposed ∈
        (initializeXposed cfg d pf true startSystemServer className argv x w).events) ∧
    (disableXposed pf d (disableXposed pf d w) = disableXposed pf d w ∧
      ((∃ f, w.files d.XPOSED_LOAD_BLOCKER = some f) → disableXposed pf d w = w)) ∧
    (∀ zygote : Bool,
      (zygote = false ∨ ∃ f, w.files d.XPOSED_SAFEMODE_DISABLE = some f) →
      (initializeXposed cfg d pf zygote startSystemServer className argv x w).world.files
          = w.files ∧
      Event.disableXposed ∉
        (initializeXposed cfg d pf zygote startSystemServer className argv x w).events) := by
  refine ⟨?_, ⟨disableXposed_idem pf d w, ?_⟩, ?_⟩
  · intro hpast hno htrig hopen
    obtain ⟨hres, hworld⟩ :=
      initializeXposed_past cfg d pf true startSystemServer className argv x w hpast
    obtain ⟨hsh, hev, _⟩ :=
      initializeXposed_gate cfg d pf true startSystemServer className argv x w hpast.1
    have hsd : isSafemodeDisabled d w = false := by
      simp [isSafemodeDisabled, zygote_access, access, hno]
    have hsm : initSafemode pf d true w = (disableXposed pf d w,
        [Event.detectSafemodeTrigger (shouldSkipSafemodeDelay d w), Event.disableXposed]) := by
      simp [initSafemode, hsd, htrig]
    obtain ⟨f, hf⟩ := disableXposed_creates pf d w hopen
    have hdis : isDisabled d (disableXposed pf d w) = true := (isDisabled_iff d _).mpr ⟨f, hf⟩
    have hdec : initDecision d true (initShared cfg pf true startSystemServer className x) argv
        (disableXposed pf d w) = (false, disableXposed pf d w) := by
      simp [initDecision, hdis]
    rw [hres, hworld, hev, hsm, hdec, hpast.2]
    refine ⟨⟨f, hf⟩, rfl, (disableXposed_frame pf d w).1, ?_, (disableXposed_frame pf d w).2, ?_⟩
    · intro f0 hf0
      rw [disableXposed_exists pf d w f0 hf0]
      exact hf0
    · simp
  · rintro ⟨f, hf⟩
    exact disableXposed_exists pf d w f hf
  · intro zygote hz
    have hsm : initSafemode pf d zygote w = (w, []) := by
      rcases hz with hz | ⟨f, hf⟩
      · simp [initSafemode, hz]
      · have : isSafemodeDisabled d w = true := by
          simp [isSafemodeDisabled, zygote_access, access, hf]
        simp [initSafemode, this]
    constructor
    · rcases initializeXposed_files cfg d pf zygote startSystemServer className argv x w
        with h | h
      · exact h
      · rw [h, hsm]
    · unfold initializeXposed
      split
      · simp
      · simp only
        split
        · have h1 : Event.disableXposed ∉ initPreamble zygote startSystemServer := by
            cases zygote <;> cases startSystemServer <;> decide
          have h2 : Event.disableXposed ∉ (initServices cfg pf startSystemServer
              (initShared cfg pf zygote startSystemServer className x)).2 := by
            unfold initServices
            repeat' split
            all_goals simp
          simp [h1, h2]
        · have h1 : Event.disableXposed ∉ initPreamble zygote startSystemServer := by
            cases zygote <;> cases startSystemServer <;> decide
          have h2 : Event.disableXposed ∉ (initServices cfg pf startSystemServer
              (initShared cfg pf zygote startSystemServer className x)).2 := by
            unfold initServices
            repeat' split
            all_goals simp
          simp [h1, h2, hsm]

/-- A concrete instance of C10: a zygote under an enforcing posture whose
safemode trigger is set. -/
theorem safemode_opt_out_witness :
    (∃ f, (initializeXposed sampleConfig sampleDefines sampleEnforcing true false [] []
        sampleShared sampleWorld).world.files sampleDefines.XPOSED_LOAD_BLOCKER = some f) ∧
    (initializeXposed sampleConfig sampleDefines sampleEnforcing true false [] []
        sampleShared sampleWorld).result = false :=
  ⟨((safemode_opt_out sampleConfig sampleDefines sampleEnforcing false [] [] sampleShared
      sampleWorld).1 ⟨Or.inl rfl, by decide⟩ (by decide) (by decide) (by decide)).1,
    ((safemode_opt_out sampleConfig sampleDefines sampleEnforcing false [] [] sampleShared
      sampleWorld).1 ⟨Or.inl rfl, by decide⟩ (by decide) (by decide) (by decide)).2.1⟩

/-- A concrete instance of C4, one for each of its four cases. -/
theorem addJarToClasspath_all_or_nothing_witness :
    (addJarToClasspath sampleDefines sampleWorldNoEnv).2.env "CLASSPATH".toList
        = some sampleDefines.XPOSED_JAR ∧
    (addJarToClasspath sampleDefines sampleWorld).2.env "CLASSPATH".toList
        = some (sampleDefines.XPOSED_JAR ++ ':' :: "/system/framework/core.jar".toList) ∧
    addJarToClasspath sampleDefines sampleWorldLongEnv = (false, sampleWorldLongEnv) ∧
    addJarToClasspath sampleDefines sampleWorldNoJar = (false, sampleWorldNoJar) :=
  ⟨((addJarToClasspath_all_or_nothing sampleDefines sampleWorldNoEnv).1
      (by decide) (by decide)).2.1,
    ((addJarToClasspath_all_or_nothing sampleDefines sampleWorld).2.1
      "/system/framework/core.jar".toList (by decide) (by decide) (by decide)).2.1,
    (addJarToClasspath_all_or_nothing sampleDefines sampleWorldLongEnv).2.2.1
      (List.replicate 4096 'a') (by decide) rfl
      (by rw [List.length_replicate]; omega)
      (by
        have h : sampleDefines.XPOSED_JAR.length = 34 := by decide
        rw [List.length_replicate, h]
        decide),
    (addJarToClasspath_all_or_nothing sampleDefines sampleWorldNoJar).2.2.2 (by decide)⟩

/-! ## Callback slots -/

/-- C9 (as stated, refuted): in a build with SELinux support, the shared
context that `initialize` leaves on a platform with SELinux switched off has
posture Disabled and null slots, and `onVmCreated` hands it to `xposedInitLib`
with the three slots pointing into the membased service. -/
theorem onVmCreated_slots_counterexample :
    securityPosture (initializeXposed sampleConfig sampleDefines sampleNoSelinux true false []
        [] sampleShared sampleWorld).shared = SecurityPostureState.Disabled ∧
    (initializeXposed sampleConfig sampleDefines sampleNoSelinux true false []
        [] sampleShared sampleWorld).shared.zygoteservice_accessFile = FnPtr.null ∧
    ((onVmCreated sampleConfig sampleDefines
        (some (listingContent ["b6f00000-b6f01000 r-xp 00000000 b3:15 1234 /system/lib/libart.so".toList]))
        sampleLoader
        (initializeXposed sampleConfig sampleDefines sampleNoSelinux true false []
          [] sampleShared sampleWorld).shared).bind (fun r => r.handedToInitLib)).map
      (fun c => (securityPosture c, c.zygoteservice_accessFile, c.zygoteservice_statFile,
        c.zygoteservice_readFile))
      = some (SecurityPostureState.Disabled, FnPtr.membased_accessFile,
          FnPtr.membased_statFile, FnPtr.membased_readFile) := by
  decide

/-- C9 (amended): `onVmCreated` always returns; whenever it has loaded the
module and resolved the entry point, the context handed to `xposedInitLib` has,
in a build with SELinux support, its three callback slots pointing to the
membased service whatever the security posture, and is, in a build without
SELinux support, exactly the context from before the call; the posture itself
is not changed, and when the entry point is not reached the context is left as
it was. -/
theorem onVmCreated_slots (cfg : BuildConfig) (d : Defines) (maps : Option (List Char))
    (ld : Loader) (x : XposedShared) :
    (∃ r, onVmCreated cfg d maps ld x = some r) ∧
    (∀ r ctx, onVmCreated cfg d maps ld x = some r → r.handedToInitLib = some ctx →
      (cfg.XPOSED_WITH_SELINUX = true →
        ctx.zygoteservice_accessFile = FnPtr.membased_accessFile ∧
        ctx.zygoteservice_statFile = FnPtr.membased_statFile ∧
        ctx.zygoteservice_readFile = FnPtr.membased_readFile) ∧
      (cfg.XPOSED_WITH_SELINUX = false → ctx = x) ∧
      securityPosture ctx = securityPosture x ∧
      r.shared = (ld.xposedInitLib ctx).2 ∧
      r.onVmCreatedCalled = (ld.xposedInitLib ctx).1) ∧
    (∀ r, onVmCreated cfg d maps ld x = some r → r.handedToInitLib = none →
      r.shared = x ∧ r.onVmCreatedCalled = false) := by
  obtain ⟨dr, hdr⟩ := (determineRuntime_total d maps none)
  have hslots : ∀ ctx, ctx = populateSlots cfg x →
      (cfg.XPOSED_WITH_SELINUX = true →
        ctx.zygoteservice_accessFile = FnPtr.membased_accessFile ∧
        ctx.zygoteservice_statFile = FnPtr.membased_statFile ∧
        ctx.zygoteservice_readFile = FnPtr.membased_readFile) ∧
      (cfg.XPOSED_WITH_SELINUX = false → ctx = x) ∧
      securityPosture ctx = securityPosture x := by
    rintro ctx rfl
    unfold populateSlots
    cases cfg.XPOSED_WITH_SELINUX <;> simp [securityPosture]
  obtain ⟨ok, path⟩ := dr
  unfold onVmCreated
  rw [hdr]
  cases ok with
  | false =>
    refine ⟨⟨_, rfl⟩, ?_, ?_⟩
    · intro r ctx hr hctx
      simp only [Option.some.injEq] at hr
      subst hr
      cases hctx
    · intro r hr _
      simp only [Option.some.injEq] at hr
      subst hr
      exact ⟨rfl, rfl⟩
  | true =>
    simp only
    cases ld.dlopen path with
    | none =>
      refine ⟨⟨_, rfl⟩, ?_, ?_⟩
      · intro r ctx hr hctx
        simp only [Option.some.injEq] at hr
        subst hr
        cases hctx
      · intro r hr _
        simp only [Option.some.injEq] at hr
        subst hr
        exact ⟨rfl, rfl⟩
    | some handle =>
      simp only
      cases ld.dlsym handle "xposedInitLib".toList with
      | false =>
        refine ⟨⟨_, rfl⟩, ?_, ?_⟩
        · intro r ctx hr hctx
          simp only [Bool.false_eq_true, if_false, Option.some.injEq] at hr
          subst hr
          cases hctx
        · intro r hr _
          simp only [Bool.false_eq_true, if_false, Option.some.injEq] at hr
          subst hr
          exact ⟨rfl, rfl⟩
      | true =>
        refine ⟨⟨_, rfl⟩, ?_, ?_⟩
        · intro r ctx hr hctx
          simp only [if_true, Option.some.injEq] at hr
          subst hr
          simp only [Option.some.injEq] at hctx
          obtain ⟨h1, h2, h3⟩ := hslots ctx hctx.symm
          exact ⟨h1, h2, h3, by rw [← hctx], by rw [← hctx]⟩
        · intro r hr hnone
          simp only [if_true, Option.some.injEq] at hr
          subst hr
          cases hnone

/-- A concrete instance of C9 (amended): a context with posture Disabled, in
a build with SELinux support, on a listing that maps `libart.so`. -/
theorem onVmCreated_slots_witness :
    (populateSlots sampleConfig sampleShared).zygoteservice_accessFile
        = FnPtr.membased_accessFile ∧
    (populateSlots sampleConfig sampleShared).zygoteservice_statFile
        = FnPtr.membased_statFile ∧
    (populateSlots sampleConfig sampleShared).zygoteservice_readFile
        = FnPtr.membased_readFile :=
  ((onVmCreated_slots sampleConfig sampleDefines
      (some (listingContent ["b6f00000-b6f01000 r-xp 00000000 b3:15 1234 /system/lib/libart.so".toList]))
      sampleLoader sampleShared).2.1
    ⟨populateSlots sampleConfig sampleShared, some (populateSlots sampleConfig sampleShared), true⟩
    (populateSlots sampleConfig sampleShared) (by decide) rfl).1 rfl

/-! ## Process rename -/

theorem memset_apply (mem : Memory) (dst : Nat) (c : Char) (n a : Nat) :
    memset mem dst c n a = if dst ≤ a ∧ a < dst + n then c else mem a := by
  induction n generalizing mem dst with
  | zero =>
    have : ¬ (dst ≤ a ∧ a < dst + 0) := by omega
    rw [memset, if_neg this]
  | succ n ih =>
    rw [memset, ih]
    by_cases h1 : dst + 1 ≤ a ∧ a < dst + 1 + n
    · have h2 : dst ≤ a ∧ a < dst + (n + 1) := by omega
      rw [if_pos h1, if_pos h2]
    · by_cases h3 : a = dst
      · have h2 : dst ≤ a ∧ a < dst + (n + 1) := by omega
        rw [if_neg h1, if_pos h2, store, if_pos h3]
      · have h2 : ¬ (dst ≤ a ∧ a < dst + (n + 1)) := by omega
        rw [if_neg h1, if_neg h2, store, if_neg h3]

theorem strlcpy_apply (mem : Memory) (dst : Nat) (src : CStr) (size a : Nat) (hs : 1 ≤ size) :
    strlcpy mem dst src size a =
      if dst ≤ a ∧ a < dst + min src.length (size - 1) then src.getD (a - dst) NUL
      else if a = dst + min src.length (size - 1) then NUL
      else mem a := by
  induction size generalizing mem dst src with
  | zero => omega
  | succ n ih =>
    cases src with
    | nil =>
      have hm : min ([] : CStr).length (n + 1 - 1) = 0 := by simp
      have : ¬ (dst ≤ a ∧ a < dst + 0) := by omega
      rw [hm, if_neg this, strlcpy, store, Nat.add_zero]
    | cons c s =>
      cases n with
      | zero =>
        have hm : min (c :: s).length (0 + 1 - 1) = 0 := by simp
        have : ¬ (dst ≤ a ∧ a < dst + 0) := by omega
        rw [hm, if_neg this, strlcpy, store, Nat.add_zero]
      | succ n =>
        rw [strlcpy, ih _ _ _ (by omega)]
        have hmin : min (c :: s).length (n + 1 + 1 - 1) = min s.length (n + 1 - 1) + 1 := by
          simp only [List.length_cons]; omega
        rw [hmin]
        generalize min s.length (n + 1 - 1) = m
        by_cases h3 : a = dst
        · subst h3
          have h1 : ¬ (a + 1 ≤ a ∧ a < a + 1 + m) := by omega
          have h2 : a ≤ a ∧ a < a + (m + 1) := by omega
          have h4 : ¬ (a = a + 1 + m) := by omega
          rw [if_neg h1, if_neg h4, if_pos h2, store, if_pos rfl, Nat.sub_self]
          rfl
        · by_cases h1 : dst + 1 ≤ a ∧ a < dst + 1 + m
          · have h2 : dst ≤ a ∧ a < dst + (m + 1) := by omega
            obtain ⟨k, hk⟩ : ∃ k, a - dst = k + 1 := ⟨a - dst - 1, by omega⟩
            have hk2 : a - (dst + 1) = k := by omega
            rw [if_pos h1, if_pos h2, hk, hk2]
            rfl
          · have h2 : ¬ (dst ≤ a ∧ a < dst + (m + 1)) := by omega
            rw [if_neg h1, if_neg h2]
            by_cases h5 : a = dst + 1 + m
            · have h6 : a = dst + (m + 1) := by omega
              rw [if_pos h5, if_pos h6]
            · have h6 : ¬ (a = dst + (m + 1)) := by omega
              rw [if_neg h5, if_neg h6, store, if_neg h3]

/-- C5: for a captured span of length `L ≥ 1` and every name, after
`setProcessName(name)` the first `min(len(name), L - 1)` bytes of the span are
the corresponding bytes of the name, every remaining byte of the span is zero
(the last one in particular), no byte outside the span is changed, and the
span itself is the same as before. -/
theorem setProcessName_bounded_write (st : ProcessState) (name : CStr)
    (hL : 1 ≤ st.argBlockLength) :
    (∀ i, i < min name.length (st.argBlockLength - 1) →
      name[i]? = some ((setProcessName st name).memory (st.argBlockStart + i))) ∧
    (∀ i, min name.length (st.argBlockLength - 1) ≤ i → i < st.argBlockLength →
      (setProcessName st name).memory (st.argBlockStart + i) = NUL) ∧
    (setProcessName st name).memory (st.argBlockStart + (st.argBlockLength - 1)) = NUL ∧
    (∀ a, a < st.argBlockStart ∨ st.argBlockStart + st.argBlockLength ≤ a →
      (setProcessName st name).memory a = st.memory a) ∧
    (setProcessName st name).argBlockStart = st.argBlockStart ∧
    (setProcessName st name).argBlockLength = st.argBlockLength ∧
    (setProcessName st name).processName = some name := by
  have key : ∀ a, (setProcessName st name).memory a =
      if st.argBlockStart ≤ a ∧ a < st.argBlockStart + min name.length (st.argBlockLength - 1)
        then name.getD (a - st.argBlockStart) NUL
      else if a = st.argBlockStart + min name.length (st.argBlockLength - 1) then NUL
      else if st.argBlockStart ≤ a ∧ a < st.argBlockStart + st.argBlockLength then NUL
      else st.memory a := by
    intro a
    simp only [setProcessName]
    rw [strlcpy_apply _ _ _ _ _ hL, memset_apply]
  have hzero : ∀ i, min name.length (st.argBlockLength - 1) ≤ i → i < st.argBlockLength →
      (setProcessName st name).memory (st.argBlockStart + i) = NUL := by
    intro i h1 h2
    rw [key]
    have c1 : ¬ (st.argBlockStart ≤ st.argBlockStart + i ∧
        st.argBlockStart + i < st.argBlockStart + min name.length (st.argBlockLength - 1)) := by
      omega
    have c3 : st.argBlockStart ≤ st.argBlockStart + i ∧
        st.argBlockStart + i < st.argBlockStart + st.argBlockLength := by omega
    rw [if_neg c1, if_pos c3]
    split <;> rfl
  refine ⟨?_, hzero, ?_, ?_, rfl, rfl, rfl⟩
  · intro i hi
    rw [key]
    have c1 : st.argBlockStart ≤ st.argBlockStart + i ∧
        st.argBlockStart + i < st.argBlockStart + min name.length (st.argBlockLength - 1) := by
      omega
    have hlt : i < name.length := by omega
    rw [if_pos c1, Nat.add_sub_cancel_left, List.getD_eq_getElem?_getD,
      List.getElem?_eq_getElem hlt]
    rfl
  · exact hzero _ (by omega) (by omega)
  · intro a ha
    rw [key]
    have c1 : ¬ (st.argBlockStart ≤ a ∧
        a < st.argBlockStart + min name.length (st.argBlockLength - 1)) := by omega
    have c2 : ¬ (a = st.argBlockStart + min name.length (st.argBlockLength - 1)) := by omega
    have c3 : ¬ (st.argBlockStart ≤ a ∧ a < st.argBlockStart + st.argBlockLength) := by omega
    rw [if_neg c1, if_neg c2, if_neg c3]

/-- A concrete instance of C5: a name of 8 bytes written into a span of 8
bytes is cut to 7 bytes and the terminator. -/
theorem setProcessName_bounded_write_witness :
    "zygote64".toList[6]? = some ((setProcessName sampleProcess "zygote64".toList).memory
      (sampleProcess.argBlockStart + 6)) ∧
    (setProcessName sampleProcess "zygote64".toList).memory
      (sampleProcess.argBlockStart + (sampleProcess.argBlockLength - 1)) = NUL :=
  ⟨(setProcessName_bounded_write sampleProcess "zygote64".toList (by decide)).1 6 (by decide),
    (setProcessName_bounded_write sampleProcess "zygote64".toList (by decide)).2.2.1⟩

/-! ## Capability drop -/

theorem CAP_TO_MASK_testBit (n c : Nat) :
    (CAP_TO_MASK n).testBit c = decide (n % 32 = c) := by
  unfold CAP_TO_MASK
  have h31 : (31 : Nat) = 2 ^ 5 - 1 := by norm_num
  rw [h31, Nat.and_pow_two_sub_one_eq_mod, Nat.one_shiftLeft, Nat.testBit_mod_two_pow,
    Nat.testBit_two_pow]
  have hlt : n % 2 ^ 5 < 32 := Nat.mod_lt _ (by norm_num)
  have e : (2 : Nat) ^ 5 = 32 := by norm_num
  rw [e] at hlt ⊢
  by_cases h : n % 32 = c
  · have : c < 32 := by omega
    simp [h, this]
  · simp [h]

theorem CAP_TO_MASK_lt (n : Nat) : CAP_TO_MASK n < 2 ^ 32 := by
  unfold CAP_TO_MASK
  exact Nat.mod_lt _ (by norm_num)

theorem CAP_TO_INDEX_eq (n : Nat) : CAP_TO_INDEX n = n / 32 := by
  unfold CAP_TO_INDEX
  rw [Nat.shiftRight_eq_div_pow]

/-- The loop over the entries before the terminator: every entry in `0..63`
adds its bit to the permitted word of its index, and nothing else changes. -/
theorem dropLoop_spec (pre : List Int) (t : Int) (post : List Int) (ht : t < 0)
    (hpre : ∀ c ∈ pre, 0 ≤ c ∧ c ≤ 63) (cap0 cap1 : CapData)
    (h0 : cap0.permitted < 2 ^ 32) (h1 : cap1.permitted < 2 ^ 32) :
    ∃ p0 p1, dropLoop (pre ++ t :: post) cap0 cap1 =
        some ({ cap0 with permitted := p0 }, { cap1 with permitted := p1 }) ∧
      p0 < 2 ^ 32 ∧ p1 < 2 ^ 32 ∧
      (∀ c : Nat, c < 32 →
        (p0.testBit c = true ↔ cap0.permitted.testBit c = true ∨ (c : Int) ∈ pre)) ∧
      (∀ c : Nat, c < 32 →
        (p1.testBit c = true ↔ cap1.permitted.testBit c = true ∨ ((c + 32 : Nat) : Int) ∈ pre)) := by
  induction pre generalizing cap0 cap1 with
  | nil =>
    refine ⟨cap0.permitted, cap1.permitted, ?_, h0, h1, ?_, ?_⟩
    · have : ¬ t ≥ 0 := by omega
      simp [dropLoop, this]
    · intro c _; simp
    · intro c _; simp
  | cons k ks ih =>
    have hk := hpre k (List.mem_cons_self _ _)
    have hks : ∀ c ∈ ks, 0 ≤ c ∧ c ≤ 63 := fun c hc => hpre c (List.mem_cons_of_mem _ hc)
    obtain ⟨n, rfl⟩ := Int.eq_ofNat_of_zero_le hk.1
    have hn : n ≤ 63 := by omega
    have hge : (n : Int) ≥ 0 := by omega
    rw [List.cons_append, dropLoop, if_pos hge, Int.toNat_ofNat, CAP_TO_INDEX_eq]
    by_cases hlo : n < 32
    · have hidx : n / 32 = 0 := by omega
      have hmod : n % 32 = n := by omega
      rw [if_pos hidx]
      obtain ⟨p0, p1, hrun, hb0, hb1, hbit0, hbit1⟩ :=
        ih hks { cap0 with permitted := cap0.permitted ||| CAP_TO_MASK n } cap1
          (Nat.or_lt_two_pow h0 (CAP_TO_MASK_lt n)) h1
      refine ⟨p0, p1, hrun, hb0, hb1, ?_, ?_⟩
      · intro c hc
        rw [hbit0 c hc]
        simp only [Nat.testBit_or, CAP_TO_MASK_testBit, hmod, Bool.or_eq_true,
          decide_eq_true_eq, List.mem_cons]
        constructor
        · rintro ((h | h) | h)
          · exact Or.inl h
          · exact Or.inr (Or.inl (by omega))
          · exact Or.inr (Or.inr h)
        · rintro (h | h | h)
          · exact Or.inl (Or.inl h)
          · exact Or.inl (Or.inr (by omega))
          · exact Or.inr h
      · intro c hc
        rw [hbit1 c hc]
        simp only [List.mem_cons]
        constructor
        · rintro (h | h)
          · exact Or.inl h
          · exact Or.inr (Or.inr h)
        · rintro (h | h | h)
          · exact Or.inl h
          · omega
          · exact Or.inr h
    · have hidx0 : ¬ n / 32 = 0 := by omega
      have hidx1 : n / 32 = 1 := by omega
      have hmod : n % 32 = n - 32 := by omega
      rw [if_neg hidx0, if_pos hidx1]
      obtain ⟨p0, p1, hrun, hb0, hb1, hbit0, hbit1⟩ :=
        ih hks cap0 { cap1 with permitted := cap1.permitted ||| CAP_TO_MASK n } h0
          (Nat.or_lt_two_pow h1 (CAP_TO_MASK_lt n))
      refine ⟨p0, p1, hrun, hb0, hb1, ?_, ?_⟩
      · intro c hc
        rw [hbit0 c hc]
        simp only [List.mem_cons]
        constructor
        · rintro (h | h)
          · exact Or.inl h
          · exact Or.inr (Or.inr h)
        · rintro (h | h | h)
          · exact Or.inl h
          · omega
          · exact Or.inr h
      · intro c hc
        rw [hbit1 c hc]
        simp only [Nat.testBit_or, CAP_TO_MASK_testBit, hmod, Bool.or_eq_true,
          decide_eq_true_eq, List.mem_cons]
        constructor
        · rintro ((h | h) | h)
          · exact Or.inl h
          · exact Or.inr (Or.inl (by omega))
          · exact Or.inr (Or.inr h)
        · rintro (h | h | h)
          · exact Or.inl (Or.inl h)
          · exact Or.inl (Or.inr (by omega))
          · exact Or.inr h

theorem dropLoop_ignores_rest (pre : List Int) (t : Int) (post : List Int) (ht : t < 0)
    (cap0 cap1 : CapData) :
    dropLoop (pre ++ t :: post) cap0 cap1 = dropLoop (pre ++ [t]) cap0 cap1 := by
  induction pre generalizing cap0 cap1 with
  | nil =>
    have : ¬ t ≥ 0 := by omega
    simp [dropLoop, this]
  | cons k ks ih =>
    simp only [List.cons_append, dropLoop]
    split
    · split
      · exact ih _ _
      · split
        · exact ih _ _
        · rfl
    · rfl

/-- C6: for every keep-list whose entries before the first negative value are
capability numbers in `0..63`, the data `dropCapabilities` passes to `capset`
has capability `c` (`0 ≤ c < 64`, bit `c mod 32` of word `c / 32`) in the
permitted set exactly when `c` occurs before the terminator, has no other bit
set, has effective and inheritable sets equal to the permitted set, and does
not depend on the entries after the terminator; for an absent keep-list and for
one whose first entry is negative all three sets are empty. -/
theorem dropCapabilities_keeps_exactly :
    (∀ (pre : List Int) (t : Int) (post : List Int), t < 0 →
      (∀ c ∈ pre, 0 ≤ c ∧ c ≤ 63) →
      ∃ cap0 cap1,
        dropCapabilities (some (pre ++ t :: post)) =
          some (⟨LINUX_CAPABILITY_VERSION_3, 0⟩, cap0, cap1) ∧
        (∀ c : Nat, c < 32 → (cap0.permitted.testBit c = true ↔ (c : Int) ∈ pre)) ∧
        (∀ c : Nat, c < 32 →
          (cap1.permitted.testBit c = true ↔ ((c + 32 : Nat) : Int) ∈ pre)) ∧
        cap0.permitted < 2 ^ 32 ∧ cap1.permitted < 2 ^ 32 ∧
        cap0.effective = cap0.permitted ∧ cap0.inheritable = cap0.permitted ∧
        cap1.effective = cap1.permitted ∧ cap1.inheritable = cap1.permitted ∧
        dropCapabilities (some (pre ++ t :: post)) = dropCapabilities (some (pre ++ [t]))) ∧
    dropCapabilities none = some (⟨LINUX_CAPABILITY_VERSION_3, 0⟩, ⟨0, 0, 0⟩, ⟨0, 0, 0⟩) ∧
    (∀ (t : Int) (post : List Int), t < 0 →
      dropCapabilities (some (t :: post)) =
        some (⟨LINUX_CAPABILITY_VERSION_3, 0⟩, ⟨0, 0, 0⟩, ⟨0, 0, 0⟩)) := by
  refine ⟨?_, rfl, ?_⟩
  · intro pre t post ht hpre
    obtain ⟨p0, p1, hrun, hb0, hb1, hbit0, hbit1⟩ :=
      dropLoop_spec pre t post ht hpre ⟨0, 0, 0⟩ ⟨0, 0, 0⟩ (by norm_num) (by norm_num)
    have hign := dropLoop_ignores_rest pre t post ht ⟨0, 0, 0⟩ ⟨0, 0, 0⟩
    refine ⟨⟨p0, p0, p0⟩, ⟨p1, p1, p1⟩, ?_, ?_, ?_, hb0, hb1, rfl, rfl, rfl, rfl, ?_⟩
    · simp only [dropCapabilities, hrun]
    · intro c hc
      have := hbit0 c hc
      simpa using this
    · intro c hc
      have := hbit1 c hc
      simpa using this
    · simp only [dropCapabilities, hign]
  · intro t post ht
    have : ¬ t ≥ 0 := by omega
    simp [dropCapabilities, dropLoop, this]

/-- A concrete instance of C6: the keep-list `[CAP_SYS_ADMIN (21), CAP_BLOCK_SUSPEND
(36), -1, 5]`. -/
theorem dropCapabilities_keeps_exactly_witness :
    ∃ cap0 cap1,
      dropCapabilities (some ([21, 36] ++ (-1) :: [5])) =
        some (⟨LINUX_CAPABILITY_VERSION_3, 0⟩, cap0, cap1) ∧
      (∀ c : Nat, c < 32 → (cap0.permitted.testBit c = true ↔ (c : Int) ∈ [21, 36])) ∧
      (∀ c : Nat, c < 32 →
        (cap1.permitted.testBit c = true ↔ ((c + 32 : Nat) : Int) ∈ [21, 36])) ∧
      cap0.permitted < 2 ^ 32 ∧ cap1.permitted < 2 ^ 32 ∧
      cap0.effective = cap0.permitted ∧ cap0.inheritable = cap0.permitted ∧
      cap1.effective = cap1.permitted ∧ cap1.inheritable = cap1.permitted ∧
      dropCapabilities (some ([21, 36] ++ (-1) :: [5])) =
        dropCapabilities (some ([21, 36] ++ [-1])) :=
  dropCapabilities_keeps_exactly.1 [21, 36] (-1) [5] (by decide) (by decide)

end xposed
